import Mathlib

/-!
# Particle Playground: the simulation core of `ParticleCanvas.jsx`

A shallow embedding of the physics in
`src/frontend/src/components/ParticleCanvas.jsx`.

* JavaScript numbers are idealised as elements of a linearly ordered field `α`
  (exact arithmetic; the specification states its properties over the reals). Definitions that
  only use `+ - * / max min floor` and comparisons are generic in `α`, so they
  run on `ℚ` and hold on `ℝ`.
* `Math.sqrt`, `Math.atan2`, `Math.cos`, `Math.sin` are library functions, not
  code of the repository: the embedding takes them as a record `JsMath α`.
  `realMath` is their exact interpretation on `ℝ`.
* `Math.random()` is an explicit stream of draws with a read position.
* Mutation of `this` and of `particlesRef.current` is explicit state passing.
* Drawing (`draw`, the connection lines, `fillRect`) has no effect on the
  particle state and is left out.
-/

namespace ParticlePlayground

/-! ## Data model -/

/-- One entry of the colour palette in the `Particle` constructor. -/
structure HSL where
  h : ℕ
  s : ℕ
  l : ℕ
  deriving DecidableEq, Repr

/-- The palette `colors` of the `Particle` constructor. -/
def colors : List HSL :=
  [ ⟨180, 100, 50⟩, ⟨280, 85, 60⟩, ⟨140, 100, 50⟩,
    ⟨320, 100, 60⟩, ⟨55, 100, 60⟩, ⟨210, 100, 60⟩ ]

/-- The drawable surface as the physics sees it. `canvas.width` and
`canvas.height` are the `unsigned long` attributes of an `HTMLCanvasElement`
(set from `window.innerWidth`/`innerHeight` in `resizeCanvas`). -/
structure Canvas where
  width : ℕ
  height : ℕ
  deriving DecidableEq, Repr

/-- The fields of `class Particle`. The `canvas` reference is passed to
`update` explicitly; `baseColor` is `none` when the palette index is out of
range (`undefined` in JavaScript). -/
structure Particle (α : Type) where
  x : α
  y : α
  vx : α
  vy : α
  radius : α
  baseColor : Option HSL
  opacity : α
  mass : α
  deriving DecidableEq, Repr

/-- The pointer state `mouseRef.current`. -/
structure Mouse (α : Type) where
  x : α
  y : α
  isActive : Bool
  deriving DecidableEq, Repr

/-- The functions of the JavaScript `Math` object that the simulation calls. -/
structure JsMath (α : Type) where
  sqrt : α → α
  atan2 : α → α → α
  cos : α → α
  sin : α → α

/-- A source of `Math.random()` results: the stream of draws and the number of
draws consumed so far. -/
structure Rng (α : Type) where
  draws : ℕ → α
  pos : ℕ

section Core

variable {α : Type} [LinearOrderedField α]

/-- One call of `Math.random()`: the draw and the advanced source. -/
def Rng.random (g : Rng α) : α × Rng α :=
  (g.draws g.pos, { g with pos := g.pos + 1 })

/-! ## `class Particle` -/

/-- Body of `Particle.update()` for the canvas `c` the particle refers to. -/
def Particle.update (c : Canvas) (p : Particle α) : Particle α :=
  -- this.x += this.vx; this.y += this.vy;
  let x := p.x + p.vx
  let y := p.y + p.vy
  -- Bounce off edges
  let (vx, x) :=
    if x < 0 ∨ x > (c.width : α) then
      (p.vx * (-0.9), max 0 (min (c.width : α) x))
    else (p.vx, x)
  let (vy, y) :=
    if y < 0 ∨ y > (c.height : α) then
      (p.vy * (-0.9), max 0 (min (c.height : α) y))
    else (p.vy, y)
  -- Add slight friction
  { p with x := x, y := y, vx := vx * 0.99, vy := vy * 0.99 }

/-- Body of `Particle.applyForce(fx, fy)`. -/
def Particle.applyForce (p : Particle α) (fx fy : α) : Particle α :=
  { p with vx := p.vx + fx, vy := p.vy + fy }

/-- Array indexing `arr[k]` with an integer index: `undefined` (here `none`)
outside `0 .. arr.length - 1`. -/
def jsIndex {β : Type} (arr : List β) (k : ℤ) : Option β :=
  if 0 ≤ k then arr[k.toNat]? else none

/-- The constructor `new Particle(x, y, canvas)`: five `Math.random()` draws in
source order (vx, vy, radius, colour index, opacity). -/
def Particle.new [FloorRing α] (x y : α) (g : Rng α) : Particle α × Rng α :=
  let (r1, g) := g.random
  let vx := (r1 - 0.5) * 2
  let (r2, g) := g.random
  let vy := (r2 - 0.5) * 2
  let (r3, g) := g.random
  let radius := r3 * 3 + 1
  let (r4, g) := g.random
  let baseColor := jsIndex colors ⌊r4 * (colors.length : α)⌋
  let (r5, g) := g.random
  let opacity := r5 * 0.5 + 0.5
  ({ x := x, y := y, vx := vx, vy := vy, radius := radius,
     baseColor := baseColor, opacity := opacity, mass := radius }, g)

/-! ## Creation and reset -/

/-- The loop `for (let i = 0; i < particleCount; i++) particles.push(new
Particle(Math.random() * canvas.width, Math.random() * canvas.height, canvas))`
shared by `initParticles` and `handleReset`; the first argument is the number
of iterations left. -/
def fillLoop [FloorRing α] (c : Canvas) :
    ℕ → List (Particle α) → Rng α → List (Particle α) × Rng α
  | 0, ps, g => (ps, g)
  | n + 1, ps, g =>
    let (rx, g) := g.random
    let (ry, g) := g.random
    let (p, g) := Particle.new (rx * (c.width : α)) (ry * (c.height : α)) g
    fillLoop c n (ps ++ [p]) g

/-- Body of `initParticles`: `particlesRef.current = []`, then the fill loop.
The argument `_prior` is the value of `particlesRef.current` on entry. -/
def initParticles [FloorRing α] (particleCount : ℕ) (c : Canvas)
    (_prior : List (Particle α)) (g : Rng α) : List (Particle α) × Rng α :=
  let particles : List (Particle α) := []
  fillLoop c particleCount particles g

/-- Body of `handleReset`: `particlesRef.current = []`, then the fill loop.
The argument `_prior` is the value of `particlesRef.current` on entry. -/
def handleReset [FloorRing α] (particleCount : ℕ) (c : Canvas)
    (_prior : List (Particle α)) (g : Rng α) : List (Particle α) × Rng α :=
  let particles : List (Particle α) := []
  fillLoop c particleCount particles g

/-- The cluster loop of `handleClick`: each iteration draws `offsetX`,
`offsetY` and pushes `new Particle(x + offsetX, y + offsetY, canvas)`; the
first argument is the number of iterations left. -/
def clusterLoop [FloorRing α] (x y : α) :
    ℕ → List (Particle α) → Rng α → List (Particle α) × Rng α
  | 0, ps, g => (ps, g)
  | n + 1, ps, g =>
    let (r1, g) := g.random
    let offsetX := (r1 - 0.5) * 50
    let (r2, g) := g.random
    let offsetY := (r2 - 0.5) * 50
    let (p, g) := Particle.new (x + offsetX) (y + offsetY) g
    clusterLoop x y n (ps ++ [p]) g

/-- The value of `clusterSize` in `handleClick` for the draw `r`:
`Math.floor(r * 6) + 10`. -/
def clusterSize [FloorRing α] (r : α) : ℤ :=
  ⌊r * 6⌋ + 10

/-- Body of `handleClick` for a click at `(clientX, clientY)` on a canvas whose
bounding rectangle starts at `(left, top)`. -/
def handleClick [FloorRing α] (clientX clientY left top : α)
    (ps : List (Particle α)) (g : Rng α) : List (Particle α) × Rng α :=
  let x := clientX - left
  let y := clientY - top
  -- Add 10-15 new particles in a cluster
  let (r, g) := g.random
  let (ps, g) := clusterLoop x y (clusterSize r).toNat ps g
  -- Limit total particles
  if ps.length > 500 then (ps.drop (ps.length - 500), g) else (ps, g)

/-! ## Force field -/

/-- The helper `distance(x1, y1, x2, y2)`. -/
def distance (M : JsMath α) (x1 y1 x2 y2 : α) : α :=
  M.sqrt ((x2 - x1) ^ 2 + (y2 - y1) ^ 2)

/-- Body of the inner loop of `handleParticleInteractions` at indices `i`, `j`
on the current particle array. -/
def pairStep (M : JsMath α) (ps : List (Particle α)) (i j : ℕ) : List (Particle α) :=
  let interactionRadius : α := 80
  match ps[i]?, ps[j]? with
  | some p1, some p2 =>
    let dist := distance M p1.x p1.y p2.x p2.y
    if dist < interactionRadius ∧ dist > 0 then
      -- Slight attraction/repulsion
      let force := (interactionRadius - dist) / interactionRadius * 0.01
      let angle := M.atan2 (p2.y - p1.y) (p2.x - p1.x)
      -- Repel if too close, attract if far
      let modifier : α := if dist < interactionRadius / 2 then -1 else 0.5
      let ps := ps.set i
        (p1.applyForce (M.cos angle * force * modifier) (M.sin angle * force * modifier))
      ps.set j
        (p2.applyForce (-M.cos angle * force * modifier) (-M.sin angle * force * modifier))
    else ps
  | _, _ => ps

/-- Body of `handleParticleInteractions`: nothing when `particleInteraction`
is off, else `pairStep` for `i = 0 .. n-1`, `j = i+1 .. n-1` in loop order. -/
def handleParticleInteractions (M : JsMath α) (particleInteraction : Bool)
    (ps : List (Particle α)) : List (Particle α) :=
  if !particleInteraction then ps
  else
    (List.range ps.length).foldl
      (fun acc i =>
        (List.range' (i + 1) (ps.length - (i + 1))).foldl (fun acc j => pairStep M acc i j) acc)
      ps

/-- Body of `handleMouseInteraction` for the pointer `mouse` and the slider
value `mouseInfluence`. -/
def handleMouseInteraction (M : JsMath α) (mouse : Mouse α) (mouseInfluence : α)
    (ps : List (Particle α)) : List (Particle α) :=
  if !mouse.isActive then ps
  else
    ps.map fun particle =>
      let dist := distance M particle.x particle.y mouse.x mouse.y
      if dist < mouseInfluence then
        let force := (mouseInfluence - dist) / mouseInfluence
        let angle := M.atan2 (particle.y - mouse.y) (particle.x - mouse.x)
        -- Push particles away from mouse
        particle.applyForce (M.cos angle * force * 0.5) (M.sin angle * force * 0.5)
      else particle

/-- The pairwise law in the words of the specification (§4.2): the velocity
increment particle `a` receives from particle `b`. Pairs at distance 0 or at
distance 80 and more get nothing; otherwise the increment is
`(80 - dist) / 80 * 0.01` times the modifier (`-1` when `dist < 80 / 2`, else
`0.5`) along the unit vector from `a` to `b`. -/
def pairLaw (M : JsMath α) (a b : Particle α) : α × α :=
  if 0 < distance M a.x a.y b.x b.y ∧ distance M a.x a.y b.x b.y < 80 then
    ((80 - distance M a.x a.y b.x b.y) / 80 * 0.01 *
        (if distance M a.x a.y b.x b.y < 80 / 2 then -1 else 0.5) *
        ((b.x - a.x) / distance M a.x a.y b.x b.y),
      (80 - distance M a.x a.y b.x b.y) / 80 * 0.01 *
        (if distance M a.x a.y b.x b.y < 80 / 2 then -1 else 0.5) *
        ((b.y - a.y) / distance M a.x a.y b.x b.y))
  else (0, 0)

/-! ## Animation frame -/

/-- The state change of one `animate()` frame: pointer field, pairwise field,
then `update` of every particle. -/
def animate (M : JsMath α) (mouse : Mouse α) (mouseInfluence : α)
    (particleInteraction : Bool) (c : Canvas) (ps : List (Particle α)) :
    List (Particle α) :=
  let ps := handleMouseInteraction M mouse mouseInfluence ps
  let ps := handleParticleInteractions M particleInteraction ps
  ps.map (Particle.update c)

end Core

/-- The exact interpretation of the `Math` functions on the reals:
`atan2 y x` is the argument of `x + y i` (so `atan2 0 0 = 0`, as in
JavaScript). -/
noncomputable def realMath : JsMath ℝ where
  sqrt := Real.sqrt
  atan2 := fun y x => Complex.arg ⟨x, y⟩
  cos := Real.cos
  sin := Real.sin

/-- Euclidean norm of a particle's velocity, `sqrt(vx^2 + vy^2)`. -/
noncomputable def speed (p : Particle ℝ) : ℝ :=
  Real.sqrt (p.vx ^ 2 + p.vy ^ 2)

/-! ## Sample inputs -/

/-- A sample `Math.random()` stream on `ℚ`: the draws cycle through
`0, 1/4, 1/2, 3/4`. -/
def sampleRng : Rng ℚ :=
  ⟨fun n => (n % 4 : ℕ) / 4, 0⟩

/-- The particle of the 800×600 scenario: at `(799, 300)` with `vx = 5`,
`vy = 0`. -/
def scenarioParticle (α : Type) [LinearOrderedField α] : Particle α :=
  { x := 799, y := 300, vx := 5, vy := 0, radius := 2,
    baseColor := some ⟨180, 100, 50⟩, opacity := 1, mass := 2 }

/-- A particle resting on the right edge of the 800×600 surface, moving
right: `x = 800`, `vx = 5`. -/
def edgeParticle : Particle ℚ :=
  { x := 800, y := 300, vx := 5, vy := 0, radius := 2,
    baseColor := some ⟨180, 100, 50⟩, opacity := 1, mass := 2 }

/-- A particle with the given position and velocity; the other fields are
fixed sample values. -/
def sampleParticle {α : Type} [LinearOrderedField α] (x y vx vy : α) : Particle α :=
  { x := x, y := y, vx := vx, vy := vy, radius := 2,
    baseColor := some ⟨180, 100, 50⟩, opacity := 1, mass := 2 }

/-- The 800×600 surface of the scenarios. -/
def surface : Canvas := ⟨800, 600⟩

/-! # Theorems -/

section UpdateLemmas

variable {α : Type} [LinearOrderedField α]

theorem update_x_eq (c : Canvas) (p : Particle α) :
    (p.update c).x =
      if p.x + p.vx < 0 ∨ p.x + p.vx > (c.width : α) then
        max 0 (min (c.width : α) (p.x + p.vx))
      else p.x + p.vx := by
  by_cases h1 : p.x + p.vx < 0 ∨ p.x + p.vx > (c.width : α) <;>
    by_cases h2 : p.y + p.vy < 0 ∨ p.y + p.vy > (c.height : α) <;>
    simp only [Particle.update, if_pos, if_neg, h1, h2, not_false_eq_true]

theorem update_y_eq (c : Canvas) (p : Particle α) :
    (p.update c).y =
      if p.y + p.vy < 0 ∨ p.y + p.vy > (c.height : α) then
        max 0 (min (c.height : α) (p.y + p.vy))
      else p.y + p.vy := by
  by_cases h1 : p.x + p.vx < 0 ∨ p.x + p.vx > (c.width : α) <;>
    by_cases h2 : p.y + p.vy < 0 ∨ p.y + p.vy > (c.height : α) <;>
    simp only [Particle.update, if_pos, if_neg, h1, h2, not_false_eq_true]

theorem update_vx_eq (c : Canvas) (p : Particle α) :
    (p.update c).vx =
      (if p.x + p.vx < 0 ∨ p.x + p.vx > (c.width : α) then p.vx * (-0.9) else p.vx) * 0.99 := by
  by_cases h1 : p.x + p.vx < 0 ∨ p.x + p.vx > (c.width : α) <;>
    by_cases h2 : p.y + p.vy < 0 ∨ p.y + p.vy > (c.height : α) <;>
    simp only [Particle.update, if_pos, if_neg, h1, h2, not_false_eq_true]

theorem update_vy_eq (c : Canvas) (p : Particle α) :
    (p.update c).vy =
      (if p.y + p.vy < 0 ∨ p.y + p.vy > (c.height : α) then p.vy * (-0.9) else p.vy) * 0.99 := by
  by_cases h1 : p.x + p.vx < 0 ∨ p.x + p.vx > (c.width : α) <;>
    by_cases h2 : p.y + p.vy < 0 ∨ p.y + p.vy > (c.height : α) <;>
    simp only [Particle.update, if_pos, if_neg, h1, h2, not_false_eq_true]

/-- Clamping as done by `update` on one axis lands in `[0, w]` for `w ≥ 0`. -/
theorem clamp_axis_mem (w v : α) (hw : 0 ≤ w) :
    0 ≤ (if v < 0 ∨ v > w then max 0 (min w v) else v) ∧
      (if v < 0 ∨ v > w then max 0 (min w v) else v) ≤ w := by
  split_ifs with h
  · exact ⟨le_max_left _ _, max_le hw (min_le_left _ _)⟩
  · push_neg at h
    exact h

end UpdateLemmas

/-- C1: after one `Particle.update()` the position lies on the surface,
`0 ≤ x ≤ canvas.width` and `0 ≤ y ≤ canvas.height`, whatever the start position
and velocity (canvas dimensions are non-negative by their type). -/
theorem update_position_within_surface {α : Type} [LinearOrderedField α]
    (c : Canvas) (p : Particle α) :
    0 ≤ (p.update c).x ∧ (p.update c).x ≤ (c.width : α) ∧
      0 ≤ (p.update c).y ∧ (p.update c).y ≤ (c.height : α) := by
  rw [update_x_eq, update_y_eq]
  obtain ⟨h1, h2⟩ := clamp_axis_mem (c.width : α) (p.x + p.vx) (Nat.cast_nonneg _)
  obtain ⟨h3, h4⟩ := clamp_axis_mem (c.height : α) (p.y + p.vy) (Nat.cast_nonneg _)
  exact ⟨h1, h2, h3, h4⟩

/-- C1 on a particle that starts off the 800×600 surface, at `(-50, 700)` with
velocity `(-3, 4)`: one `update` puts it at `(0, 600)`, on the surface. -/
theorem update_position_within_surface_witness :
    ((sampleParticle (-50 : ℚ) 700 (-3) 4).update surface).x = 0 ∧
      ((sampleParticle (-50 : ℚ) 700 (-3) 4).update surface).y = 600 ∧
      (0 ≤ ((sampleParticle (-50 : ℚ) 700 (-3) 4).update surface).x ∧
        ((sampleParticle (-50 : ℚ) 700 (-3) 4).update surface).x ≤ (surface.width : ℚ) ∧
        0 ≤ ((sampleParticle (-50 : ℚ) 700 (-3) 4).update surface).y ∧
        ((sampleParticle (-50 : ℚ) 700 (-3) 4).update surface).y ≤ (surface.height : ℚ)) := by
  refine ⟨?_, ?_, update_position_within_surface surface (sampleParticle (-50 : ℚ) 700 (-3) 4)⟩
  · rw [update_x_eq]
    norm_num [sampleParticle, surface]
  · rw [update_y_eq]
    norm_num [sampleParticle, surface]

/-- C2: reflect-then-friction on the right edge. If `x + vx > canvas.width`
and `0 ≤ y + vy ≤ canvas.height`, one `update` leaves `x = canvas.width`,
`vx' = vx * (-0.9) * 0.99`, `y' = y + vy` and `vy' = 0.99 * vy`. -/
theorem update_right_edge_reflect {α : Type} [LinearOrderedField α]
    (c : Canvas) (p : Particle α)
    (hx : p.x + p.vx > (c.width : α))
    (hy0 : 0 ≤ p.y + p.vy) (hy1 : p.y + p.vy ≤ (c.height : α)) :
    (p.update c).x = (c.width : α) ∧
      (p.update c).vx = p.vx * (-0.9) * 0.99 ∧
      (p.update c).y = p.y + p.vy ∧
      (p.update c).vy = 0.99 * p.vy := by
  have hw : (0 : α) ≤ (c.width : α) := Nat.cast_nonneg _
  have hyn : ¬ (p.y + p.vy < 0 ∨ p.y + p.vy > (c.height : α)) := by
    push_neg
    exact ⟨hy0, hy1⟩
  rw [update_x_eq, update_vx_eq, update_y_eq, update_vy_eq,
    if_pos (Or.inr hx), if_pos (Or.inr hx), if_neg hyn, if_neg hyn]
  refine ⟨?_, rfl, rfl, mul_comm _ _⟩
  rw [min_eq_left (le_of_lt hx), max_eq_right hw]

/-- C2 at the scenario of the specification: surface 800×600, particle at
`(799, 300)` with `vx = 5`, `vy = 0` ends with `x = 800`, `vx = -4.455`,
`vy = 0`. -/
theorem update_right_edge_reflect_witness :
    ((scenarioParticle ℚ).update surface).x = 800 ∧
      ((scenarioParticle ℚ).update surface).vx = -4.455 ∧
      ((scenarioParticle ℚ).update surface).y = 300 ∧
      ((scenarioParticle ℚ).update surface).vy = 0 := by
  have h := update_right_edge_reflect surface (scenarioParticle ℚ)
    (by norm_num [scenarioParticle, surface]) (by norm_num [scenarioParticle])
    (by norm_num [scenarioParticle, surface])
  obtain ⟨h1, h2, h3, h4⟩ := h
  refine ⟨?_, ?_, ?_, ?_⟩
  · rw [h1]; norm_num [surface]
  · rw [h2]; norm_num [scenarioParticle]
  · rw [h3]; norm_num [scenarioParticle]
  · rw [h4]; norm_num [scenarioParticle]

/-- C9 as stated fails: for the particle at `x = canvas.width = 800` with
`vx = 5 > 0`, one `update` leaves `vx = -4.455`, not `-0.9 * 5 = -4.5`,
because the friction factor is applied in the same call. -/
theorem update_edge_not_pure_reflection :
    edgeParticle.x = (surface.width : ℚ) ∧ edgeParticle.vx > 0 ∧
      (edgeParticle.update surface).vx = -4.455 ∧
      (edgeParticle.update surface).vx ≠ -0.9 * edgeParticle.vx := by
  have h : (edgeParticle.update surface).vx = -4.455 := by
    rw [update_vx_eq]
    norm_num [edgeParticle, surface]
  refine ⟨by norm_num [edgeParticle, surface], by norm_num [edgeParticle], h, ?_⟩
  rw [h]
  norm_num [edgeParticle]

/-- C9, amended: a particle at `x = canvas.width` with `vx > 0` crosses the
edge in this step; `update` puts it back on the edge and leaves
`vx' = -0.9 * vx * 0.99`, the reflected velocity `-0.9 * vx` times the friction
factor. -/
theorem update_edge_reflect_then_friction {α : Type} [LinearOrderedField α]
    (c : Canvas) (p : Particle α) (hx : p.x = (c.width : α)) (hv : p.vx > 0) :
    (p.update c).vx = -0.9 * p.vx * 0.99 ∧ (p.update c).x = (c.width : α) := by
  have hw : (0 : α) ≤ (c.width : α) := Nat.cast_nonneg _
  have hgt : p.x + p.vx > (c.width : α) := by
    rw [hx]
    exact lt_add_of_pos_right _ hv
  rw [update_vx_eq, update_x_eq, if_pos (Or.inr hgt), if_pos (Or.inr hgt),
    min_eq_left (le_of_lt hgt), max_eq_right hw]
  exact ⟨by ring, rfl⟩

/-- C9, amended, at the edge particle: `vx' = -0.9 * 5 * 0.99` and `x = 800`. -/
theorem update_edge_reflect_then_friction_witness :
    (edgeParticle.update surface).vx = -0.9 * edgeParticle.vx * 0.99 ∧
      (edgeParticle.update surface).x = (surface.width : ℚ) :=
  update_edge_reflect_then_friction surface edgeParticle
    (by norm_num [edgeParticle, surface]) (by norm_num [edgeParticle])

section Friction

theorem abs_damped_le {α : Type} [LinearOrderedField α] (b : Prop) [Decidable b] (v : α) :
    |(if b then v * (-0.9) else v) * 0.99| ≤ 0.99 * |v| := by
  have h0 : (0 : α) ≤ |v| := abs_nonneg v
  have h99 : |(0.99 : α)| = 0.99 := abs_of_nonneg (by norm_num)
  have h9 : |(-0.9 : α)| = 0.9 := by
    rw [abs_neg]
    exact abs_of_nonneg (by norm_num)
  split_ifs
  · rw [abs_mul, abs_mul, h99, h9]
    nlinarith
  · rw [abs_mul, h99]
    exact le_of_eq (mul_comm _ _)

theorem abs_update_vx_le {α : Type} [LinearOrderedField α] (c : Canvas) (p : Particle α) :
    |(p.update c).vx| ≤ 0.99 * |p.vx| := by
  rw [update_vx_eq]
  exact abs_damped_le _ _

theorem abs_update_vy_le {α : Type} [LinearOrderedField α] (c : Canvas) (p : Particle α) :
    |(p.update c).vy| ≤ 0.99 * |p.vy| := by
  rw [update_vy_eq]
  exact abs_damped_le _ _

theorem speed_nonneg (p : Particle ℝ) : 0 ≤ speed p :=
  Real.sqrt_nonneg _

theorem speed_update_le (c : Canvas) (p : Particle ℝ) :
    speed (p.update c) ≤ 0.99 * speed p := by
  have hx := abs_update_vx_le c p
  have hy := abs_update_vy_le c p
  have hx2 : (p.update c).vx ^ 2 ≤ (0.99 * p.vx) ^ 2 := by
    rw [sq_le_sq, abs_mul, abs_of_nonneg (by norm_num : (0 : ℝ) ≤ 0.99)]
    exact hx
  have hy2 : (p.update c).vy ^ 2 ≤ (0.99 * p.vy) ^ 2 := by
    rw [sq_le_sq, abs_mul, abs_of_nonneg (by norm_num : (0 : ℝ) ≤ 0.99)]
    exact hy
  have hs : 0 ≤ p.vx ^ 2 + p.vy ^ 2 := by positivity
  unfold speed
  rw [Real.sqrt_le_iff]
  refine ⟨mul_nonneg (by norm_num) (Real.sqrt_nonneg _), ?_⟩
  rw [mul_pow, Real.sq_sqrt hs]
  nlinarith

theorem speed_pos_of_moving (p : Particle ℝ) (h : ¬ (p.vx = 0 ∧ p.vy = 0)) : 0 < speed p := by
  unfold speed
  apply Real.sqrt_pos.mpr
  by_contra hn
  have h1 : 0 ≤ p.vx ^ 2 := sq_nonneg _
  have h2 : 0 ≤ p.vy ^ 2 := sq_nonneg _
  have hx : p.vx ^ 2 = 0 := by linarith
  have hy : p.vy ^ 2 = 0 := by linarith
  exact h ⟨pow_eq_zero_iff (two_ne_zero) |>.mp hx, pow_eq_zero_iff (two_ne_zero) |>.mp hy⟩

theorem speed_steps_le (cs : List Canvas) (p : Particle ℝ) :
    speed (cs.foldl (fun q c => q.update c) p) ≤ 0.99 ^ cs.length * speed p := by
  induction cs generalizing p with
  | nil => simp
  | cons c cs ih =>
    rw [List.foldl_cons, List.length_cons, pow_succ]
    calc speed (cs.foldl (fun q c => q.update c) (p.update c))
        ≤ 0.99 ^ cs.length * speed (p.update c) := ih _
      _ ≤ 0.99 ^ cs.length * (0.99 * speed p) :=
          mul_le_mul_of_nonneg_left (speed_update_le c p) (by positivity)
      _ = 0.99 ^ cs.length * 0.99 * speed p := by ring

theorem handleMouseInteraction_inactive {α : Type} [LinearOrderedField α] (M : JsMath α)
    (mouse : Mouse α) (R : α) (ps : List (Particle α)) (hm : mouse.isActive = false) :
    handleMouseInteraction M mouse R ps = ps := by
  simp [handleMouseInteraction, hm]

theorem handleParticleInteractions_off {α : Type} [LinearOrderedField α] (M : JsMath α)
    (ps : List (Particle α)) : handleParticleInteractions M false ps = ps := by
  simp [handleParticleInteractions]

theorem animate_free {α : Type} [LinearOrderedField α] (M : JsMath α)
    (mouse : Mouse α) (R : α) (c : Canvas) (ps : List (Particle α))
    (hm : mouse.isActive = false) :
    animate M mouse R false c ps = ps.map (Particle.update c) := by
  simp only [animate, handleMouseInteraction_inactive M mouse R ps hm,
    handleParticleInteractions_off]

theorem animate_free_steps {α : Type} [LinearOrderedField α] (M : JsMath α)
    (mouse : Mouse α) (R : α) (hm : mouse.isActive = false)
    (cs : List Canvas) (ps : List (Particle α)) :
    cs.foldl (fun acc c => animate M mouse R false c acc) ps =
      ps.map (fun p => cs.foldl (fun q c => q.update c) p) := by
  induction cs generalizing ps with
  | nil => simp
  | cons c cs ih =>
    rw [List.foldl_cons, animate_free M mouse R c ps hm, ih, List.map_map]
    rfl

end Friction

/-- C3: friction. With the pointer inactive and pairwise interaction off,
every `animate` frame is `update` on each particle (whatever the canvas size of
that frame); one `update` gives `|vx'| ≤ 0.99 |vx|` and `|vy'| ≤ 0.99 |vy|`; the
speed never grows and strictly drops unless the velocity is zero; after `n`
frames it is at most `0.99 ^ n` times the initial speed, and it tends to
zero. -/
theorem friction_decay (M : JsMath ℝ) (mouse : Mouse ℝ) (mouseInfluence : ℝ)
    (hm : mouse.isActive = false) :
    (∀ (cs : List Canvas) (ps : List (Particle ℝ)),
        cs.foldl (fun acc c => animate M mouse mouseInfluence false c acc) ps =
          ps.map (fun p => cs.foldl (fun q c => q.update c) p)) ∧
      (∀ (c : Canvas) (p : Particle ℝ),
        |(p.update c).vx| ≤ 0.99 * |p.vx| ∧ |(p.update c).vy| ≤ 0.99 * |p.vy|) ∧
      (∀ (c : Canvas) (p : Particle ℝ),
        speed (p.update c) ≤ speed p ∧
          (¬ (p.vx = 0 ∧ p.vy = 0) → speed (p.update c) < speed p)) ∧
      (∀ (cs : List Canvas) (p : Particle ℝ),
        speed (cs.foldl (fun q c => q.update c) p) ≤ 0.99 ^ cs.length * speed p) ∧
      (∀ (cs : ℕ → Canvas) (p : Particle ℝ),
        Filter.Tendsto
          (fun n => speed (((List.range n).map cs).foldl (fun q c => q.update c) p))
          Filter.atTop (nhds 0)) := by
  refine ⟨animate_free_steps M mouse mouseInfluence hm, ?_, ?_, speed_steps_le, ?_⟩
  · exact fun c p => ⟨abs_update_vx_le c p, abs_update_vy_le c p⟩
  · intro c p
    have h := speed_update_le c p
    have h0 := speed_nonneg p
    refine ⟨by linarith, fun hne => ?_⟩
    have hp := speed_pos_of_moving p hne
    linarith
  · intro cs p
    have hlim : Filter.Tendsto (fun n : ℕ => (0.99 : ℝ) ^ n * speed p) Filter.atTop (nhds 0) := by
      have := (tendsto_pow_atTop_nhds_zero_of_lt_one (by norm_num : (0 : ℝ) ≤ 0.99)
        (by norm_num : (0.99 : ℝ) < 1)).mul_const (speed p)
      simpa using this
    refine squeeze_zero (fun n => speed_nonneg _) (fun n => ?_) hlim
    have := speed_steps_le ((List.range n).map cs) p
    simpa using this

/-- C3 on the scenario particle (`vx = 5`, `vy = 0`, pointer idle at
`(400, 300)`): two frames on the 800×600 surface are two `update`s of it, and
its speed is then at most `0.99 ^ 2` times the initial one. -/
theorem friction_decay_witness :
    [surface, surface].foldl
        (fun acc c => animate realMath ⟨400, 300, false⟩ 150 false c acc) [scenarioParticle ℝ] =
      [((scenarioParticle ℝ).update surface).update surface] ∧
    speed (((scenarioParticle ℝ).update surface).update surface) ≤
      0.99 ^ 2 * speed (scenarioParticle ℝ) ∧
    speed ((scenarioParticle ℝ).update surface) < speed (scenarioParticle ℝ) := by
  have h := friction_decay realMath ⟨400, 300, false⟩ 150 rfl
  refine ⟨?_, ?_, ?_⟩
  · simpa using h.1 [surface, surface] [scenarioParticle ℝ]
  · simpa using h.2.2.2.1 [surface, surface] (scenarioParticle ℝ)
  · exact (h.2.2.1 surface (scenarioParticle ℝ)).2 (by norm_num [scenarioParticle])

section Pairwise

variable {α : Type} [LinearOrderedField α]

/-- On a pair with `0 < dist < 80` the loop body applies
`(cos angle * force * modifier, sin angle * force * modifier)` to `p1` and the
same with `-cos angle`, `-sin angle` to `p2`. -/
theorem pairStep_interacting (M : JsMath α) (ps : List (Particle α)) (i j : ℕ)
    (p1 p2 : Particle α) (h1 : ps[i]? = some p1) (h2 : ps[j]? = some p2)
    (hd : 0 < distance M p1.x p1.y p2.x p2.y ∧ distance M p1.x p1.y p2.x p2.y < 80) :
    pairStep M ps i j =
      (ps.set i (p1.applyForce
        (M.cos (M.atan2 (p2.y - p1.y) (p2.x - p1.x)) *
          ((80 - distance M p1.x p1.y p2.x p2.y) / 80 * 0.01) *
          (if distance M p1.x p1.y p2.x p2.y < 80 / 2 then -1 else 0.5))
        (M.sin (M.atan2 (p2.y - p1.y) (p2.x - p1.x)) *
          ((80 - distance M p1.x p1.y p2.x p2.y) / 80 * 0.01) *
          (if distance M p1.x p1.y p2.x p2.y < 80 / 2 then -1 else 0.5)))).set j
      (p2.applyForce
        (-M.cos (M.atan2 (p2.y - p1.y) (p2.x - p1.x)) *
          ((80 - distance M p1.x p1.y p2.x p2.y) / 80 * 0.01) *
          (if distance M p1.x p1.y p2.x p2.y < 80 / 2 then -1 else 0.5))
        (-M.sin (M.atan2 (p2.y - p1.y) (p2.x - p1.x)) *
          ((80 - distance M p1.x p1.y p2.x p2.y) / 80 * 0.01) *
          (if distance M p1.x p1.y p2.x p2.y < 80 / 2 then -1 else 0.5))) := by
  unfold pairStep
  simp only [h1, h2]
  rw [if_pos ⟨hd.2, hd.1⟩]

theorem pairStep_not_interacting (M : JsMath α)
    (ps : List (Particle α)) (i j : ℕ)
    (p1 p2 : Particle α) (h1 : ps[i]? = some p1) (h2 : ps[j]? = some p2)
    (hd : ¬ (0 < distance M p1.x p1.y p2.x p2.y ∧ distance M p1.x p1.y p2.x p2.y < 80)) :
    pairStep M ps i j = ps := by
  unfold pairStep
  simp only [h1, h2]
  rw [if_neg (fun h => hd ⟨h.2, h.1⟩)]

theorem getElem?_set_set_left {β : Type} (l : List β) (i j : ℕ) (a b p : β) (hij : i ≠ j)
    (h : l[i]? = some p) : ((l.set i a).set j b)[i]? = some a := by
  have hi : i < l.length := by
    rcases Nat.lt_or_ge i l.length with hlt | hge
    · exact hlt
    · rw [List.getElem?_eq_none hge] at h
      exact absurd h (by simp)
  rw [List.getElem?_set_ne (Ne.symm hij), List.getElem?_set_self hi]

theorem getElem?_set_set_right {β : Type} (l : List β) (i j : ℕ) (a b p : β)
    (h : l[j]? = some p) : ((l.set i a).set j b)[j]? = some b := by
  have hj : j < l.length := by
    rcases Nat.lt_or_ge j l.length with hlt | hge
    · exact hlt
    · rw [List.getElem?_eq_none hge] at h
      exact absurd h (by simp)
  rw [List.getElem?_set_self (by simpa using hj)]

theorem sum_map_set_set (f : Particle α → α) (l : List (Particle α)) (i j : ℕ)
    (a b p1 p2 : Particle α) (hij : i ≠ j) (h1 : l[i]? = some p1) (h2 : l[j]? = some p2) :
    (((l.set i a).set j b).map f).sum = (l.map f).sum + (f a - f p1) + (f b - f p2) := by
  obtain ⟨hi, e1⟩ := List.getElem?_eq_some.mp h1
  obtain ⟨hj, e2⟩ := List.getElem?_eq_some.mp h2
  rw [List.map_set, List.map_set, List.sum_set', List.sum_set']
  have hj2 : j < ((l.map f).set i (f a)).length := by simpa using hj
  have hi2 : i < (l.map f).length := by simpa using hi
  rw [dif_pos hj2, dif_pos hi2, List.getElem_set_ne hij, List.getElem_map, List.getElem_map,
    e1, e2]
  ring

theorem pairStep_sum (M : JsMath α) (ps : List (Particle α)) (i j : ℕ) (hij : i ≠ j) :
    ((pairStep M ps i j).map Particle.vx).sum = (ps.map Particle.vx).sum ∧
      ((pairStep M ps i j).map Particle.vy).sum = (ps.map Particle.vy).sum := by
  unfold pairStep
  cases h1 : ps[i]? with
  | none => exact ⟨rfl, rfl⟩
  | some p1 =>
    cases h2 : ps[j]? with
    | none => exact ⟨rfl, rfl⟩
    | some p2 =>
      simp only
      split_ifs
      · constructor <;>
          rw [sum_map_set_set _ ps i j _ _ p1 p2 hij h1 h2] <;>
          simp only [Particle.applyForce] <;> ring
      · constructor <;>
          rw [sum_map_set_set _ ps i j _ _ p1 p2 hij h1 h2] <;>
          simp only [Particle.applyForce] <;> ring
      · exact ⟨rfl, rfl⟩

theorem inner_loop_sum (M : JsMath α) (i : ℕ) (js : List ℕ) (hjs : ∀ j ∈ js, i ≠ j)
    (ps : List (Particle α)) :
    ((js.foldl (fun acc j => pairStep M acc i j) ps).map Particle.vx).sum =
        (ps.map Particle.vx).sum ∧
      ((js.foldl (fun acc j => pairStep M acc i j) ps).map Particle.vy).sum =
        (ps.map Particle.vy).sum := by
  induction js generalizing ps with
  | nil => exact ⟨rfl, rfl⟩
  | cons j js ih =>
    rw [List.foldl_cons]
    have hstep := pairStep_sum M ps i j (hjs j (List.mem_cons_self _ _))
    have hrest := ih (fun k hk => hjs k (List.mem_cons_of_mem _ hk)) (pairStep M ps i j)
    exact ⟨hrest.1.trans hstep.1, hrest.2.trans hstep.2⟩

theorem outer_loop_sum (M : JsMath α) (n : ℕ) (is : List ℕ) (ps : List (Particle α)) :
    ((is.foldl (fun acc i =>
        (List.range' (i + 1) (n - (i + 1))).foldl (fun acc j => pairStep M acc i j) acc)
        ps).map Particle.vx).sum = (ps.map Particle.vx).sum ∧
      ((is.foldl (fun acc i =>
        (List.range' (i + 1) (n - (i + 1))).foldl (fun acc j => pairStep M acc i j) acc)
        ps).map Particle.vy).sum = (ps.map Particle.vy).sum := by
  induction is generalizing ps with
  | nil => exact ⟨rfl, rfl⟩
  | cons i is ih =>
    rw [List.foldl_cons]
    have hin := inner_loop_sum M i (List.range' (i + 1) (n - (i + 1)))
      (fun j hj => by
        have := (List.mem_range'_1.mp hj).1
        omega) ps
    have hrest := ih
      ((List.range' (i + 1) (n - (i + 1))).foldl (fun acc j => pairStep M acc i j) ps)
    exact ⟨hrest.1.trans hin.1, hrest.2.trans hin.2⟩

theorem handleParticleInteractions_sum (M : JsMath α) (b : Bool) (ps : List (Particle α)) :
    ((handleParticleInteractions M b ps).map Particle.vx).sum = (ps.map Particle.vx).sum ∧
      ((handleParticleInteractions M b ps).map Particle.vy).sum = (ps.map Particle.vy).sum := by
  unfold handleParticleInteractions
  split_ifs
  · exact ⟨rfl, rfl⟩
  · exact outer_loop_sum M ps.length (List.range ps.length) ps

end Pairwise

/-- C4: pairwise symmetry. When the inner loop body of
`handleParticleInteractions` runs on a pair `i < j` with `0 < dist < 80`, the
velocity increment of particle `j` is the exact negation of the increment of
particle `i` on both axes: the two increments sum to `(0, 0)`. Positions are
untouched, and over a whole pass of `handleParticleInteractions` the sum of all
velocities is unchanged on both axes. -/
theorem pair_increments_cancel {α : Type} [LinearOrderedField α] (M : JsMath α)
    (ps : List (Particle α)) (i j : ℕ) (p1 p2 : Particle α) (hij : i < j)
    (h1 : ps[i]? = some p1) (h2 : ps[j]? = some p2)
    (hd : 0 < distance M p1.x p1.y p2.x p2.y ∧ distance M p1.x p1.y p2.x p2.y < 80) :
    ∃ q1 q2 : Particle α,
      (pairStep M ps i j)[i]? = some q1 ∧ (pairStep M ps i j)[j]? = some q2 ∧
      q2.vx - p2.vx = -(q1.vx - p1.vx) ∧ q2.vy - p2.vy = -(q1.vy - p1.vy) ∧
      (q1.vx - p1.vx) + (q2.vx - p2.vx) = 0 ∧ (q1.vy - p1.vy) + (q2.vy - p2.vy) = 0 ∧
      q1.x = p1.x ∧ q1.y = p1.y ∧ q2.x = p2.x ∧ q2.y = p2.y ∧
      ((handleParticleInteractions M true ps).map Particle.vx).sum =
        (ps.map Particle.vx).sum ∧
      ((handleParticleInteractions M true ps).map Particle.vy).sum =
        (ps.map Particle.vy).sum := by
  rw [pairStep_interacting M ps i j p1 p2 h1 h2 hd]
  refine ⟨_, _, getElem?_set_set_left ps i j _ _ p1 (Nat.ne_of_lt hij) h1,
    getElem?_set_set_right ps i j _ _ p2 h2, ?_, ?_, ?_, ?_, rfl, rfl, rfl, rfl,
    (handleParticleInteractions_sum M true ps).1,
    (handleParticleInteractions_sum M true ps).2⟩ <;>
    simp only [Particle.applyForce] <;> ring

section RealMath

theorem realMath_distance (x1 y1 x2 y2 : ℝ) :
    distance realMath x1 y1 x2 y2 = Real.sqrt ((x2 - x1) ^ 2 + (y2 - y1) ^ 2) :=
  rfl

theorem realMath_distance_nonneg (x1 y1 x2 y2 : ℝ) : 0 ≤ distance realMath x1 y1 x2 y2 :=
  Real.sqrt_nonneg _

theorem realMath_distance_sq (x1 y1 x2 y2 : ℝ) :
    distance realMath x1 y1 x2 y2 ^ 2 = (x2 - x1) ^ 2 + (y2 - y1) ^ 2 := by
  rw [realMath_distance]
  exact Real.sq_sqrt (by positivity)

theorem realMath_distance_comm (x1 y1 x2 y2 : ℝ) :
    distance realMath x1 y1 x2 y2 = distance realMath x2 y2 x1 y1 := by
  rw [realMath_distance, realMath_distance]
  congr 1
  ring

theorem realMath_distance_zero (x1 y1 x2 y2 : ℝ) (h : distance realMath x1 y1 x2 y2 = 0) :
    x2 - x1 = 0 ∧ y2 - y1 = 0 := by
  have hs := realMath_distance_sq x1 y1 x2 y2
  rw [h] at hs
  have h1 : 0 ≤ (x2 - x1) ^ 2 := sq_nonneg _
  have h2 : 0 ≤ (y2 - y1) ^ 2 := sq_nonneg _
  have hx : (x2 - x1) ^ 2 = 0 := by nlinarith
  have hy : (y2 - y1) ^ 2 = 0 := by nlinarith
  exact ⟨pow_eq_zero_iff (two_ne_zero) |>.mp hx, pow_eq_zero_iff (two_ne_zero) |>.mp hy⟩

/-- With exact `Math` functions, `cos(atan2(y2 - y1, x2 - x1))` is the `x`
component of the unit vector from `(x1, y1)` to `(x2, y2)`. -/
theorem realMath_cos_angle (x1 y1 x2 y2 : ℝ) (h : 0 < distance realMath x1 y1 x2 y2) :
    realMath.cos (realMath.atan2 (y2 - y1) (x2 - x1)) =
      (x2 - x1) / distance realMath x1 y1 x2 y2 := by
  have hne : (⟨x2 - x1, y2 - y1⟩ : ℂ) ≠ 0 := by
    intro h0
    have hre : x2 - x1 = 0 := congrArg Complex.re h0
    have him : y2 - y1 = 0 := congrArg Complex.im h0
    rw [realMath_distance, hre, him] at h
    simp at h
  show Real.cos (Complex.arg ⟨x2 - x1, y2 - y1⟩) = _
  rw [Complex.cos_arg hne, Complex.abs_apply, Complex.normSq_mk, realMath_distance, sq, sq]

/-- With exact `Math` functions, `sin(atan2(y2 - y1, x2 - x1))` is the `y`
component of the unit vector from `(x1, y1)` to `(x2, y2)`. -/
theorem realMath_sin_angle (x1 y1 x2 y2 : ℝ) :
    realMath.sin (realMath.atan2 (y2 - y1) (x2 - x1)) =
      (y2 - y1) / distance realMath x1 y1 x2 y2 := by
  show Real.sin (Complex.arg ⟨x2 - x1, y2 - y1⟩) = _
  rw [Complex.sin_arg, Complex.abs_apply, Complex.normSq_mk, realMath_distance, sq, sq]

end RealMath

section PairLaw

theorem applyForce_zero {α : Type} [LinearOrderedField α] (p : Particle α) :
    p.applyForce 0 0 = p := by
  cases p
  simp [Particle.applyForce]

theorem applyForce_applyForce {α : Type} [LinearOrderedField α] (p : Particle α)
    (a b c d : α) : (p.applyForce a b).applyForce c d = p.applyForce (a + c) (b + d) := by
  simp [Particle.applyForce, add_assoc]

theorem pairLaw_applyForce_left {α : Type} [LinearOrderedField α] (M : JsMath α)
    (a b : Particle α) (u v : α) : pairLaw M (a.applyForce u v) b = pairLaw M a b :=
  rfl

theorem pairLaw_applyForce_right {α : Type} [LinearOrderedField α] (M : JsMath α)
    (a b : Particle α) (u v : α) : pairLaw M a (b.applyForce u v) = pairLaw M a b :=
  rfl

theorem realMath_distance_self (x y : ℝ) : distance realMath x y x y = 0 := by
  rw [realMath_distance]
  simp

theorem pairLaw_self (p : Particle ℝ) : pairLaw realMath p p = (0, 0) := by
  unfold pairLaw
  rw [realMath_distance_self, if_neg (fun h => lt_irrefl _ h.1)]

theorem pairLaw_far (a b : Particle ℝ)
    (h : ¬ (0 < distance realMath a.x a.y b.x b.y ∧ distance realMath a.x a.y b.x b.y < 80)) :
    pairLaw realMath a b = (0, 0) := by
  unfold pairLaw
  rw [if_neg h]

/-- On a list split around the two particles, the loop body adds
`pairLaw p b` to `p`, `pairLaw b p` to `b` and leaves the rest alone. -/
theorem pairStep_decomp (pre mid post : List (Particle ℝ)) (p b : Particle ℝ) :
    pairStep realMath (pre ++ p :: (mid ++ b :: post)) pre.length
        (pre.length + mid.length + 1) =
      pre ++ p.applyForce (pairLaw realMath p b).1 (pairLaw realMath p b).2 ::
        (mid ++ b.applyForce (pairLaw realMath b p).1 (pairLaw realMath b p).2 :: post) := by
  have h1 : (pre ++ p :: (mid ++ b :: post))[pre.length]? = some p := by
    rw [List.getElem?_append_right (le_refl _), Nat.sub_self, List.getElem?_cons_zero]
  have h2 : (pre ++ p :: (mid ++ b :: post))[pre.length + mid.length + 1]? = some b := by
    rw [List.getElem?_append_right (by omega)]
    have e : pre.length + mid.length + 1 - pre.length = mid.length + 1 := by omega
    rw [e, List.getElem?_cons_succ, List.getElem?_append_right (le_refl _)]
    simp
  have hset : ∀ x y : Particle ℝ,
      ((pre ++ p :: (mid ++ b :: post)).set pre.length x).set (pre.length + mid.length + 1) y =
        pre ++ x :: (mid ++ y :: post) := by
    intro x y
    rw [List.set_append_right _ _ (le_refl _), Nat.sub_self, List.set_cons_zero,
      List.set_append_right _ _ (by omega)]
    have e : pre.length + mid.length + 1 - pre.length = mid.length + 1 := by omega
    rw [e, List.set_cons_succ, List.set_append_right _ _ (le_refl _), Nat.sub_self,
      List.set_cons_zero]
  have hcomm := realMath_distance_comm b.x b.y p.x p.y
  by_cases hint : 0 < distance realMath p.x p.y b.x b.y ∧ distance realMath p.x p.y b.x b.y < 80
  · have hc := realMath_cos_angle p.x p.y b.x b.y hint.1
    have hs := realMath_sin_angle p.x p.y b.x b.y
    rw [pairStep_interacting realMath _ _ _ p b h1 h2 hint, hset]
    have e1 : pairLaw realMath p b =
        (realMath.cos (realMath.atan2 (b.y - p.y) (b.x - p.x)) *
            ((80 - distance realMath p.x p.y b.x b.y) / 80 * 0.01) *
            (if distance realMath p.x p.y b.x b.y < 80 / 2 then -1 else 0.5),
          realMath.sin (realMath.atan2 (b.y - p.y) (b.x - p.x)) *
            ((80 - distance realMath p.x p.y b.x b.y) / 80 * 0.01) *
            (if distance realMath p.x p.y b.x b.y < 80 / 2 then -1 else 0.5)) := by
      unfold pairLaw
      rw [if_pos hint, hc, hs]
      ext <;> simp only <;> ring
    have e2 : pairLaw realMath b p =
        (-realMath.cos (realMath.atan2 (b.y - p.y) (b.x - p.x)) *
            ((80 - distance realMath p.x p.y b.x b.y) / 80 * 0.01) *
            (if distance realMath p.x p.y b.x b.y < 80 / 2 then -1 else 0.5),
          -realMath.sin (realMath.atan2 (b.y - p.y) (b.x - p.x)) *
            ((80 - distance realMath p.x p.y b.x b.y) / 80 * 0.01) *
            (if distance realMath p.x p.y b.x b.y < 80 / 2 then -1 else 0.5)) := by
      unfold pairLaw
      rw [hcomm, if_pos hint, hc, hs]
      ext <;> simp only <;> ring
    rw [e1, e2]
  · rw [pairStep_not_interacting realMath _ _ _ p b h1 h2 hint, pairLaw_far p b hint,
      pairLaw_far b p (by rw [hcomm]; exact hint)]
    simp only [applyForce_zero]

/-- The inner loop for the particle at index `pre.length`: it gains the sum of
`pairLaw` against the particles still to visit and each of them gains its own
`pairLaw` against it. -/
theorem inner_loop_pairLaw (pre todo : List (Particle ℝ)) (done : List (Particle ℝ))
    (p : Particle ℝ) :
    (List.range' (pre.length + done.length + 1) todo.length).foldl
        (fun acc j => pairStep realMath acc pre.length j) (pre ++ p :: (done ++ todo)) =
      pre ++ p.applyForce (todo.map fun b => (pairLaw realMath p b).1).sum
          (todo.map fun b => (pairLaw realMath p b).2).sum ::
        (done ++ todo.map fun b =>
          b.applyForce (pairLaw realMath b p).1 (pairLaw realMath b p).2) := by
  induction todo generalizing p done with
  | nil => simp [applyForce_zero]
  | cons b todo ih =>
    rw [List.length_cons, List.range'_succ, List.foldl_cons, pairStep_decomp pre done todo p b]
    have h := ih (done ++ [b.applyForce (pairLaw realMath b p).1 (pairLaw realMath b p).2])
      (p.applyForce (pairLaw realMath p b).1 (pairLaw realMath p b).2)
    simp only [List.length_append, List.length_singleton, List.append_assoc,
      List.singleton_append] at h
    rw [show pre.length + done.length + 1 + 1 = pre.length + (done.length + 1) + 1 by omega, h]
    simp only [applyForce_applyForce, pairLaw_applyForce_left, pairLaw_applyForce_right,
      List.map_cons, List.sum_cons]

/-- The outer loop from index `pre.length` on: the particles before it are left
alone and every later particle gains the sum of `pairLaw` against all later
particles. -/
theorem outer_loop_pairLaw (n m : ℕ) (l pre : List (Particle ℝ)) (hm : l.length = m)
    (hn : n = pre.length + l.length) :
    ∃ l2 : List (Particle ℝ),
      (List.range' pre.length l.length).foldl
          (fun acc i => (List.range' (i + 1) (n - (i + 1))).foldl
            (fun acc j => pairStep realMath acc i j) acc) (pre ++ l) = pre ++ l2 ∧
      ∀ (k : ℕ) (p : Particle ℝ), l[k]? = some p →
        ∃ q : Particle ℝ, l2[k]? = some q ∧ q.x = p.x ∧ q.y = p.y ∧
          q.vx = p.vx + (l.map fun b => (pairLaw realMath p b).1).sum ∧
          q.vy = p.vy + (l.map fun b => (pairLaw realMath p b).2).sum := by
  induction m generalizing l pre with
  | zero =>
    have hl : l = [] := List.length_eq_zero.mp hm
    subst hl
    exact ⟨[], by simp, fun k p h => by simp at h⟩
  | succ m ih =>
    obtain ⟨p, rest, rfl⟩ : ∃ p rest, l = p :: rest := by
      cases l with
      | nil => simp at hm
      | cons p rest => exact ⟨p, rest, rfl⟩
    have hrest : rest.length = m := by simpa using hm
    rw [List.length_cons, List.range'_succ, List.foldl_cons]
    have hlen : n - (pre.length + 1) = rest.length := by
      rw [hn, List.length_cons]
      omega
    have hin := inner_loop_pairLaw pre rest [] p
    simp only [List.length_nil, add_zero, List.nil_append] at hin
    rw [hlen, hin]
    obtain ⟨l2, hl2, hq⟩ := ih
      (rest.map fun b => b.applyForce (pairLaw realMath b p).1 (pairLaw realMath b p).2)
      (pre ++ [p.applyForce (rest.map fun b => (pairLaw realMath p b).1).sum
        (rest.map fun b => (pairLaw realMath p b).2).sum])
      (by rw [List.length_map, hrest])
      (by
        simp only [hn, List.length_append, List.length_singleton, List.length_cons,
          List.length_map, List.length_nil]
        omega)
    simp only [List.length_append, List.length_singleton, List.length_map, List.append_assoc,
      List.singleton_append] at hl2
    refine ⟨_ :: l2, hl2, ?_⟩
    intro k r hr
    cases k with
    | zero =>
      rw [List.getElem?_cons_zero] at hr
      have e : p = r := Option.some.inj hr
      subst e
      refine ⟨_, List.getElem?_cons_zero, rfl, rfl, ?_, ?_⟩
      · simp only [Particle.applyForce, List.map_cons, List.sum_cons, pairLaw_self, zero_add]
      · simp only [Particle.applyForce, List.map_cons, List.sum_cons, pairLaw_self, zero_add]
    | succ k =>
      rw [List.getElem?_cons_succ] at hr
      obtain ⟨q, hq1, hq2, hq3, hq4, hq5⟩ := hq k
        (r.applyForce (pairLaw realMath r p).1 (pairLaw realMath r p).2)
        (by rw [List.getElem?_map, hr]; rfl)
      refine ⟨q, by rw [List.getElem?_cons_succ]; exact hq1, hq2, hq3, ?_, ?_⟩
      · rw [hq4]
        simp only [List.map_map, Function.comp_def, pairLaw_applyForce_left,
          pairLaw_applyForce_right, List.map_cons, List.sum_cons]
        simp only [Particle.applyForce]
        ring
      · rw [hq5]
        simp only [List.map_map, Function.comp_def, pairLaw_applyForce_left,
          pairLaw_applyForce_right, List.map_cons, List.sum_cons]
        simp only [Particle.applyForce]
        ring

/-- A whole pass of `handleParticleInteractions` with interaction on: every
particle keeps its position and gains the sum of `pairLaw` against all
particles of the list (its own term is zero). -/
theorem handleParticleInteractions_pairLaw (ps : List (Particle ℝ)) (k : ℕ) (p : Particle ℝ)
    (h : ps[k]? = some p) :
    ∃ q : Particle ℝ, (handleParticleInteractions realMath true ps)[k]? = some q ∧
      q.x = p.x ∧ q.y = p.y ∧
      q.vx = p.vx + (ps.map fun b => (pairLaw realMath p b).1).sum ∧
      q.vy = p.vy + (ps.map fun b => (pairLaw realMath p b).2).sum := by
  obtain ⟨l2, hl2, hq⟩ := outer_loop_pairLaw ps.length ps.length ps [] rfl (by simp)
  simp only [List.length_nil, List.nil_append] at hl2
  have e : handleParticleInteractions realMath true ps = l2 := by
    unfold handleParticleInteractions
    rw [if_neg (by simp), List.range_eq_range']
    exact hl2
  rw [e]
  exact hq k p h

end PairLaw

/-- The force law on the loop body: for a pair `p1 = particles[i]`,
`p2 = particles[j]` (`i < j`) at distance `d`, `pairStep` adds
`(80 - d) / 80 * 0.01 * modifier` times the unit vector from `p1` to `p2` to
`p1`'s velocity, with `modifier = -1` for `0 < d < 40` (each increment points
away from the other particle) and `0.5` for `40 ≤ d < 80` (toward it). -/
theorem pairStep_force_law (ps : List (Particle ℝ)) (i j : ℕ) (p1 p2 : Particle ℝ)
    (d : ℝ) (hij : i < j) (h1 : ps[i]? = some p1) (h2 : ps[j]? = some p2)
    (hd : d = distance realMath p1.x p1.y p2.x p2.y) :
    ∃ q1 q2 : Particle ℝ,
      (pairStep realMath ps i j)[i]? = some q1 ∧ (pairStep realMath ps i j)[j]? = some q2 ∧
      (0 < d ∧ d < 40 →
        q1.vx - p1.vx = (80 - d) / 80 * 0.01 * (-1) * ((p2.x - p1.x) / d) ∧
        q1.vy - p1.vy = (80 - d) / 80 * 0.01 * (-1) * ((p2.y - p1.y) / d) ∧
        (q1.vx - p1.vx) * (p2.x - p1.x) + (q1.vy - p1.vy) * (p2.y - p1.y) < 0 ∧
        (q2.vx - p2.vx) * (p1.x - p2.x) + (q2.vy - p2.vy) * (p1.y - p2.y) < 0) ∧
      (40 ≤ d ∧ d < 80 →
        q1.vx - p1.vx = (80 - d) / 80 * 0.01 * 0.5 * ((p2.x - p1.x) / d) ∧
        q1.vy - p1.vy = (80 - d) / 80 * 0.01 * 0.5 * ((p2.y - p1.y) / d) ∧
        0 < (q1.vx - p1.vx) * (p2.x - p1.x) + (q1.vy - p1.vy) * (p2.y - p1.y) ∧
        0 < (q2.vx - p2.vx) * (p1.x - p2.x) + (q2.vy - p2.vy) * (p1.y - p2.y)) := by
  subst hd
  have hsq := realMath_distance_sq p1.x p1.y p2.x p2.y
  have hs := realMath_sin_angle p1.x p1.y p2.x p2.y
  by_cases hint : 0 < distance realMath p1.x p1.y p2.x p2.y ∧
      distance realMath p1.x p1.y p2.x p2.y < 80
  · have hc := realMath_cos_angle p1.x p1.y p2.x p2.y hint.1
    rw [pairStep_interacting realMath ps i j p1 p2 h1 h2 hint]
    simp only [Particle.applyForce, hc, hs]
    generalize distance realMath p1.x p1.y p2.x p2.y = d at hsq hint
    have hdne : d ≠ 0 := ne_of_gt hint.1
    have key : ∀ a : ℝ, a * ((p2.x - p1.x) / d) * (p2.x - p1.x) +
        a * ((p2.y - p1.y) / d) * (p2.y - p1.y) = a * d := by
      intro a
      field_simp
      linear_combination (-a) * hsq
    refine ⟨_, _, getElem?_set_set_left ps i j _ _ p1 (Nat.ne_of_lt hij) h1,
      getElem?_set_set_right ps i j _ _ p2 h2, ?_, ?_⟩
    · rintro ⟨h0, h40⟩
      have hlt : d < 80 / 2 := by linarith
      simp only [if_pos hlt]
      have hk := key ((80 - d) / 80 * 0.01 * (-1))
      have hneg : (80 - d) / 80 * 0.01 * (-1) * d < 0 := by
        have : 0 < (80 - d) / 80 * 0.01 * d := by
          have : 0 < 80 - d := by linarith
          positivity
        linarith
      refine ⟨by ring, by ring, ?_, ?_⟩
      · linear_combination hneg + hk
      · linear_combination hneg + hk
    · rintro ⟨h40, h80⟩
      have hlt : ¬ d < 80 / 2 := by
        intro h
        linarith
      simp only [if_neg hlt]
      have hk := key ((80 - d) / 80 * 0.01 * 0.5)
      have hpos : 0 < (80 - d) / 80 * 0.01 * 0.5 * d := by
        have : 0 < 80 - d := by linarith
        have : 0 < d := by linarith
        positivity
      refine ⟨by ring, by ring, ?_, ?_⟩
      · linear_combination hpos - hk
      · linear_combination hpos - hk
  · rw [pairStep_not_interacting realMath ps i j p1 p2 h1 h2 hint]
    refine ⟨p1, p2, h1, h2, ?_, ?_⟩
    · rintro ⟨h0, h40⟩
      exact absurd ⟨h0, by linarith⟩ hint
    · rintro ⟨h40, h80⟩
      exact absurd ⟨by linarith, h80⟩ hint

section Samples

theorem realMath_distance_horizontal (x1 x2 y : ℝ) (h : x1 ≤ x2) :
    distance realMath x1 y x2 y = x2 - x1 := by
  rw [realMath_distance, sub_self]
  simp only [ne_eq, OfNat.ofNat_ne_zero, not_false_eq_true, zero_pow, add_zero]
  exact Real.sqrt_sq (by linarith)

theorem realMath_distance_vertical (x y1 y2 : ℝ) (h : y1 ≤ y2) :
    distance realMath x y1 x y2 = y2 - y1 := by
  rw [realMath_distance, sub_self]
  simp only [ne_eq, OfNat.ofNat_ne_zero, not_false_eq_true, zero_pow, zero_add]
  exact Real.sqrt_sq (by linarith)

end Samples

/-- C4 on two particles 30 apart, `(0, 0)` and `(30, 0)`: the pair interacts
and the increments of the two velocities cancel. -/
theorem pair_increments_cancel_witness :
    ∃ q1 q2 : Particle ℝ,
      (pairStep realMath [sampleParticle 0 0 1 0, sampleParticle 30 0 0 0] 0 1)[0]? = some q1 ∧
      (pairStep realMath [sampleParticle 0 0 1 0, sampleParticle 30 0 0 0] 0 1)[1]? = some q2 ∧
      (q1.vx - 1) + (q2.vx - 0) = 0 ∧ (q1.vy - 0) + (q2.vy - 0) = 0 := by
  have hdist : distance realMath (0 : ℝ) 0 30 0 = 30 := by
    rw [realMath_distance_horizontal 0 30 0 (by norm_num)]
    norm_num
  obtain ⟨q1, q2, e1, e2, -, -, hx, hy, -⟩ :=
    pair_increments_cancel realMath [sampleParticle 0 0 1 0, sampleParticle 30 0 0 0] 0 1
      (sampleParticle 0 0 1 0) (sampleParticle 30 0 0 0) (by decide) rfl rfl
      (by
        show 0 < distance realMath (0 : ℝ) 0 30 0 ∧ distance realMath (0 : ℝ) 0 30 0 < 80
        rw [hdist]
        norm_num)
  exact ⟨q1, q2, e1, e2, hx, hy⟩

section TwoParticles

/-- On a list of two particles a pass of `handleParticleInteractions` is the
loop body at the pair `(0, 1)`. -/
theorem handleParticleInteractions_two {α : Type} [LinearOrderedField α] (M : JsMath α)
    (p1 p2 : Particle α) :
    handleParticleInteractions M true [p1, p2] = pairStep M [p1, p2] 0 1 := by
  simp [handleParticleInteractions, List.range_succ, List.range']

/-- The law is antisymmetric: what `b` receives from `a` is the negation of
what `a` receives from `b`. -/
theorem pairLaw_swap (a b : Particle ℝ) :
    pairLaw realMath b a = (-(pairLaw realMath a b).1, -(pairLaw realMath a b).2) := by
  unfold pairLaw
  rw [realMath_distance_comm b.x b.y a.x a.y]
  split_ifs <;> ext <;> simp only <;> ring

end TwoParticles

/-- C5: the pairwise force law and its sign change at half the interaction
radius, for `p1 = particles[i]`, `p2 = particles[j]` (`i < j`) at distance `d`.

* A pass of `handleParticleInteractions` (interaction on) keeps every position
  and adds to every particle's velocity the sum of `pairLaw` against all
  particles of the list; the term `p1` gets from `p2` is
  `(80 - d) / 80 * 0.01 * modifier` times the unit vector from `p1` to `p2`, with
  `modifier = -1` for `0 < d < 40` and `modifier = 0.5` for `40 ≤ d < 80`, and
  `p2` gets the negation.
* With the two particles alone, the pass changes `p1`'s velocity by exactly that
  vector: for `0 < d < 40` each particle's increment has a negative component
  along the direction to the other (repulsion), for `40 ≤ d < 80` a positive one
  (attraction). `d = 40 - eps` and `d = 40 + eps` with `0 < eps < 40` fall in the
  first and second range.
* The loop body `pairStep` at `(i, j)` applies the same increments on any
  list. -/
theorem pair_force_sign_change (ps : List (Particle ℝ)) (i j : ℕ) (p1 p2 : Particle ℝ)
    (d : ℝ) (hij : i < j) (h1 : ps[i]? = some p1) (h2 : ps[j]? = some p2)
    (hd : d = distance realMath p1.x p1.y p2.x p2.y) :
    (∀ (k : ℕ) (p : Particle ℝ), ps[k]? = some p →
      ∃ q : Particle ℝ, (handleParticleInteractions realMath true ps)[k]? = some q ∧
        q.x = p.x ∧ q.y = p.y ∧
        q.vx = p.vx + (ps.map fun b => (pairLaw realMath p b).1).sum ∧
        q.vy = p.vy + (ps.map fun b => (pairLaw realMath p b).2).sum) ∧
    (0 < d ∧ d < 40 →
      pairLaw realMath p1 p2 =
        ((80 - d) / 80 * 0.01 * (-1) * ((p2.x - p1.x) / d),
          (80 - d) / 80 * 0.01 * (-1) * ((p2.y - p1.y) / d))) ∧
    (40 ≤ d ∧ d < 80 →
      pairLaw realMath p1 p2 =
        ((80 - d) / 80 * 0.01 * 0.5 * ((p2.x - p1.x) / d),
          (80 - d) / 80 * 0.01 * 0.5 * ((p2.y - p1.y) / d))) ∧
    pairLaw realMath p2 p1 = (-(pairLaw realMath p1 p2).1, -(pairLaw realMath p1 p2).2) ∧
    (∃ q1 q2 : Particle ℝ,
      (handleParticleInteractions realMath true [p1, p2])[0]? = some q1 ∧
      (handleParticleInteractions realMath true [p1, p2])[1]? = some q2 ∧
      (0 < d ∧ d < 40 →
        q1.vx - p1.vx = (80 - d) / 80 * 0.01 * (-1) * ((p2.x - p1.x) / d) ∧
        q1.vy - p1.vy = (80 - d) / 80 * 0.01 * (-1) * ((p2.y - p1.y) / d) ∧
        (q1.vx - p1.vx) * (p2.x - p1.x) + (q1.vy - p1.vy) * (p2.y - p1.y) < 0 ∧
        (q2.vx - p2.vx) * (p1.x - p2.x) + (q2.vy - p2.vy) * (p1.y - p2.y) < 0) ∧
      (40 ≤ d ∧ d < 80 →
        q1.vx - p1.vx = (80 - d) / 80 * 0.01 * 0.5 * ((p2.x - p1.x) / d) ∧
        q1.vy - p1.vy = (80 - d) / 80 * 0.01 * 0.5 * ((p2.y - p1.y) / d) ∧
        0 < (q1.vx - p1.vx) * (p2.x - p1.x) + (q1.vy - p1.vy) * (p2.y - p1.y) ∧
        0 < (q2.vx - p2.vx) * (p1.x - p2.x) + (q2.vy - p2.vy) * (p1.y - p2.y))) ∧
    (∃ q1 q2 : Particle ℝ,
      (pairStep realMath ps i j)[i]? = some q1 ∧ (pairStep realMath ps i j)[j]? = some q2 ∧
      (0 < d ∧ d < 40 →
        q1.vx - p1.vx = (80 - d) / 80 * 0.01 * (-1) * ((p2.x - p1.x) / d) ∧
        q1.vy - p1.vy = (80 - d) / 80 * 0.01 * (-1) * ((p2.y - p1.y) / d) ∧
        (q1.vx - p1.vx) * (p2.x - p1.x) + (q1.vy - p1.vy) * (p2.y - p1.y) < 0 ∧
        (q2.vx - p2.vx) * (p1.x - p2.x) + (q2.vy - p2.vy) * (p1.y - p2.y) < 0) ∧
      (40 ≤ d ∧ d < 80 →
        q1.vx - p1.vx = (80 - d) / 80 * 0.01 * 0.5 * ((p2.x - p1.x) / d) ∧
        q1.vy - p1.vy = (80 - d) / 80 * 0.01 * 0.5 * ((p2.y - p1.y) / d) ∧
        0 < (q1.vx - p1.vx) * (p2.x - p1.x) + (q1.vy - p1.vy) * (p2.y - p1.y) ∧
        0 < (q2.vx - p2.vx) * (p1.x - p2.x) + (q2.vy - p2.vy) * (p1.y - p2.y))) := by
  refine ⟨fun k p h => handleParticleInteractions_pairLaw ps k p h, ?_, ?_, pairLaw_swap p1 p2,
    ?_, pairStep_force_law ps i j p1 p2 d hij h1 h2 hd⟩
  · rintro ⟨h0, h40⟩
    unfold pairLaw
    rw [← hd, if_pos ⟨h0, by linarith⟩, if_pos (by linarith)]
  · rintro ⟨h40, h80⟩
    unfold pairLaw
    rw [← hd, if_pos ⟨by linarith, h80⟩, if_neg (by intro h; linarith)]
  · rw [handleParticleInteractions_two]
    exact pairStep_force_law [p1, p2] 0 1 p1 p2 d (by decide) rfl rfl hd

/-- C5 on two particles on a horizontal line, alone on the surface: at
distance 30 a pass of `handleParticleInteractions` pushes the left one left and
the right one right (apart), at distance 50 it pulls the left one right and the
right one left (together). -/
theorem pair_force_sign_change_witness :
    (∃ q1 q2 : Particle ℝ,
      (handleParticleInteractions realMath true
        [sampleParticle 0 0 0 0, sampleParticle 30 0 0 0])[0]? = some q1 ∧
      (handleParticleInteractions realMath true
        [sampleParticle 0 0 0 0, sampleParticle 30 0 0 0])[1]? = some q2 ∧
      q1.vx = (80 - 30) / 80 * 0.01 * (-1) ∧ q1.vx < 0 ∧ 0 < q2.vx) ∧
    (∃ q1 q2 : Particle ℝ,
      (handleParticleInteractions realMath true
        [sampleParticle 0 0 0 0, sampleParticle 50 0 0 0])[0]? = some q1 ∧
      (handleParticleInteractions realMath true
        [sampleParticle 0 0 0 0, sampleParticle 50 0 0 0])[1]? = some q2 ∧
      q1.vx = (80 - 50) / 80 * 0.01 * 0.5 ∧ 0 < q1.vx ∧ q2.vx < 0) ∧
    (∃ q : Particle ℝ,
      (handleParticleInteractions realMath true
        [sampleParticle 0 0 0 0, sampleParticle 30 0 0 0, sampleParticle 200 0 0 0])[0]? =
          some q ∧
      q.vx = (80 - 30) / 80 * 0.01 * (-1)) := by
  refine ⟨?_, ?_, ?_⟩
  · obtain ⟨-, -, -, -, ⟨q1, q2, e1, e2, hrep, -⟩, -⟩ :=
      pair_force_sign_change [sampleParticle 0 0 0 0, sampleParticle 30 0 0 0] 0 1
        (sampleParticle 0 0 0 0) (sampleParticle 30 0 0 0) 30 (by decide) rfl rfl
        (by
          show (30 : ℝ) = distance realMath (0 : ℝ) 0 30 0
          rw [realMath_distance_horizontal 0 30 0 (by norm_num)]
          norm_num)
    obtain ⟨hx, -, hd1, hd2⟩ := hrep ⟨by norm_num, by norm_num⟩
    simp only [sampleParticle] at hx hd1 hd2
    refine ⟨q1, q2, e1, e2, ?_, ?_, ?_⟩
    · linarith
    · linarith
    · linarith
  · obtain ⟨-, -, -, -, ⟨q1, q2, e1, e2, -, hatt⟩, -⟩ :=
      pair_force_sign_change [sampleParticle 0 0 0 0, sampleParticle 50 0 0 0] 0 1
        (sampleParticle 0 0 0 0) (sampleParticle 50 0 0 0) 50 (by decide) rfl rfl
        (by
          show (50 : ℝ) = distance realMath (0 : ℝ) 0 50 0
          rw [realMath_distance_horizontal 0 50 0 (by norm_num)]
          norm_num)
    obtain ⟨hx, -, hd1, hd2⟩ := hatt ⟨by norm_num, by norm_num⟩
    simp only [sampleParticle] at hx hd1 hd2
    refine ⟨q1, q2, e1, e2, ?_, ?_, ?_⟩
    · linarith
    · linarith
    · linarith
  · have h30 : (30 : ℝ) = distance realMath (0 : ℝ) 0 30 0 := by
      rw [realMath_distance_horizontal 0 30 0 (by norm_num)]
      norm_num
    have h200 : distance realMath (0 : ℝ) 0 200 0 = 200 := by
      rw [realMath_distance_horizontal 0 200 0 (by norm_num)]
      norm_num
    obtain ⟨hpass, hlaw, -, -, -, -⟩ :=
      pair_force_sign_change
        [sampleParticle 0 0 0 0, sampleParticle 30 0 0 0, sampleParticle 200 0 0 0] 0 1
        (sampleParticle 0 0 0 0) (sampleParticle 30 0 0 0) 30 (by decide) rfl rfl h30
    obtain ⟨q, hq, -, -, hvx, -⟩ := hpass 0 (sampleParticle 0 0 0 0) rfl
    have hfar : pairLaw realMath (sampleParticle (0 : ℝ) 0 0 0) (sampleParticle 200 0 0 0) =
        (0, 0) := by
      apply pairLaw_far
      show ¬ (0 < distance realMath (0 : ℝ) 0 200 0 ∧ distance realMath (0 : ℝ) 0 200 0 < 80)
      rw [h200]
      norm_num
    refine ⟨q, hq, ?_⟩
    rw [hvx]
    simp only [List.map_cons, List.map_nil, List.sum_cons, List.sum_nil, pairLaw_self, hfar,
      hlaw ⟨by norm_num, by norm_num⟩]
    simp only [sampleParticle]
    norm_num

section Pointer

/-- What `handleMouseInteraction` leaves at index `i`: the particle pushed by
the `forEach` callback when the pointer is active and within reach, else the
particle itself. -/
theorem handleMouseInteraction_getElem? {α : Type} [LinearOrderedField α] (M : JsMath α)
    (mouse : Mouse α) (R : α) (ps : List (Particle α)) (i : ℕ) (p : Particle α)
    (h : ps[i]? = some p) :
    (handleMouseInteraction M mouse R ps)[i]? =
      some (if mouse.isActive = true ∧ distance M p.x p.y mouse.x mouse.y < R then
        p.applyForce
          (M.cos (M.atan2 (p.y - mouse.y) (p.x - mouse.x)) *
            ((R - distance M p.x p.y mouse.x mouse.y) / R) * 0.5)
          (M.sin (M.atan2 (p.y - mouse.y) (p.x - mouse.x)) *
            ((R - distance M p.x p.y mouse.x mouse.y) / R) * 0.5)
      else p) := by
  unfold handleMouseInteraction
  cases hm : mouse.isActive with
  | false => simp [h]
  | true =>
    simp only [Bool.not_true, Bool.false_eq_true, if_false, List.getElem?_map, h, Option.map_some',
      true_and]

theorem handleMouseInteraction_length {α : Type} [LinearOrderedField α] (M : JsMath α)
    (mouse : Mouse α) (R : α) (ps : List (Particle α)) :
    (handleMouseInteraction M mouse R ps).length = ps.length := by
  unfold handleMouseInteraction
  split_ifs
  · rfl
  · exact List.length_map _ _

end Pointer

/-- C6: the pointer law. `handleMouseInteraction` keeps the number of particles
and every position. A particle's velocity is unchanged when the pointer is
inactive or the particle is at distance `≥ R`; when the pointer is active and
`0 < dist < R` the velocity gains exactly `0.5 * (R - dist) / R` times the unit
vector from the pointer to the particle. The gained velocity never has a
negative component along the direction from the pointer to the particle: the
pointer pushes away and never pulls. -/
theorem pointer_law (mouse : Mouse ℝ) (R : ℝ) (hR : 0 < R) (ps : List (Particle ℝ)) :
    (handleMouseInteraction realMath mouse R ps).length = ps.length ∧
    ∀ (i : ℕ) (p : Particle ℝ), ps[i]? = some p →
      ∃ q : Particle ℝ, (handleMouseInteraction realMath mouse R ps)[i]? = some q ∧
        q.x = p.x ∧ q.y = p.y ∧
        (mouse.isActive = false ∨ distance realMath p.x p.y mouse.x mouse.y ≥ R →
          q.vx = p.vx ∧ q.vy = p.vy) ∧
        (mouse.isActive = true ∧ 0 < distance realMath p.x p.y mouse.x mouse.y ∧
            distance realMath p.x p.y mouse.x mouse.y < R →
          q.vx = p.vx + 0.5 * ((R - distance realMath p.x p.y mouse.x mouse.y) / R) *
            ((p.x - mouse.x) / distance realMath p.x p.y mouse.x mouse.y) ∧
          q.vy = p.vy + 0.5 * ((R - distance realMath p.x p.y mouse.x mouse.y) / R) *
            ((p.y - mouse.y) / distance realMath p.x p.y mouse.x mouse.y) ∧
          0 < (q.vx - p.vx) * (p.x - mouse.x) + (q.vy - p.vy) * (p.y - mouse.y)) ∧
        0 ≤ (q.vx - p.vx) * (p.x - mouse.x) + (q.vy - p.vy) * (p.y - mouse.y) := by
  refine ⟨handleMouseInteraction_length realMath mouse R ps, fun i p h => ?_⟩
  refine ⟨_, handleMouseInteraction_getElem? realMath mouse R ps i p h, ?_⟩
  have hcomm := realMath_distance_comm p.x p.y mouse.x mouse.y
  have hsq := realMath_distance_sq mouse.x mouse.y p.x p.y
  have hs := realMath_sin_angle mouse.x mouse.y p.x p.y
  have hnn := realMath_distance_nonneg mouse.x mouse.y p.x p.y
  rw [hcomm]
  by_cases hact : mouse.isActive = true ∧ distance realMath mouse.x mouse.y p.x p.y < R
  · rw [if_pos hact]
    simp only [Particle.applyForce, hs]
    rcases eq_or_lt_of_le hnn with h0 | hpos
    · -- the particle sits on the pointer
      have hz := realMath_distance_zero mouse.x mouse.y p.x p.y h0.symm
      rw [← h0]
      refine ⟨trivial, trivial, ?_, ?_, ?_⟩
      · rintro (hf | hge)
        · rw [hact.1] at hf
          exact absurd hf (by simp)
        · exact absurd hR (not_lt.mpr hge)
      · rintro ⟨-, hlt, -⟩
        exact absurd hlt (lt_irrefl _)
      · rw [hz.1, hz.2]
        simp
    · have hc := realMath_cos_angle mouse.x mouse.y p.x p.y hpos
      rw [hc]
      generalize distance realMath mouse.x mouse.y p.x p.y = d at hsq hact hpos
      have hdne : d ≠ 0 := ne_of_gt hpos
      have key : ∀ a : ℝ, a * ((p.x - mouse.x) / d) * (p.x - mouse.x) +
          a * ((p.y - mouse.y) / d) * (p.y - mouse.y) = a * d := by
        intro a
        field_simp
        linear_combination (-a) * hsq
      have hk := key (0.5 * ((R - d) / R))
      have hgain : 0 < 0.5 * ((R - d) / R) * d := by
        have : 0 < R - d := by linarith [hact.2]
        positivity
      have hdot : 0 < (p.vx + (p.x - mouse.x) / d * ((R - d) / R) * 0.5 - p.vx) *
          (p.x - mouse.x) +
          (p.vy + (p.y - mouse.y) / d * ((R - d) / R) * 0.5 - p.vy) * (p.y - mouse.y) := by
        linear_combination hgain - hk
      refine ⟨trivial, trivial, ?_, ?_, le_of_lt hdot⟩
      · rintro (hf | hge)
        · rw [hact.1] at hf
          exact absurd hf (by simp)
        · exact absurd hact.2 (not_lt.mpr hge)
      · rintro -
        exact ⟨by ring, by ring, hdot⟩
  · rw [if_neg hact]
    refine ⟨rfl, rfl, fun _ => ⟨rfl, rfl⟩, ?_, by simp⟩
    rintro ⟨ha, -, hlt⟩
    exact absurd ⟨ha, hlt⟩ hact

/-- C6 on a pointer at `(100, 100)` with radius 150 and a particle 30 to its
right: the particle stays in place and gains `0.5 * (150 - 30) / 150 = 0.4`
along `+x`, away from the pointer. -/
theorem pointer_law_witness :
    ∃ q : Particle ℝ,
      (handleMouseInteraction realMath ⟨100, 100, true⟩ 150 [sampleParticle 130 100 0 0])[0]? =
        some q ∧
      q.x = 130 ∧ q.y = 100 ∧ q.vx = 0.4 ∧ q.vy = 0 := by
  have hdist : distance realMath (130 : ℝ) 100 100 100 = 30 := by
    rw [realMath_distance_comm, realMath_distance_horizontal 100 130 100 (by norm_num)]
    norm_num
  obtain ⟨q, hq, hx, hy, -, hpush, -⟩ :=
    (pointer_law ⟨100, 100, true⟩ 150 (by norm_num) [sampleParticle 130 100 0 0]).2 0
      (sampleParticle 130 100 0 0) rfl
  have h := hpush ⟨rfl, by
    show 0 < distance realMath (130 : ℝ) 100 100 100
    rw [hdist]
    norm_num, by
    show distance realMath (130 : ℝ) 100 100 100 < 150
    rw [hdist]
    norm_num⟩
  simp only [sampleParticle] at h hx hy
  rw [hdist] at h
  refine ⟨q, hq, hx, hy, ?_, ?_⟩
  · rw [h.1]
    norm_num
  · rw [h.2.1]
    norm_num

section PointerScenario

/-- The pointer field on a single particle straight above an active pointer
at `(400, 300)` with radius 150: the particle at `(400, 220)` is at distance 80
and gains `(0, -7/30)`. -/
theorem pointer_scenario_push (p : Particle ℝ) (hx : p.x = 400) (hy : p.y = 220) :
    handleMouseInteraction realMath ⟨400, 300, true⟩ 150 [p] =
      [p.applyForce 0 (-(7 / 30))] := by
  have hd : distance realMath (400 : ℝ) 220 400 300 = 80 := by
    rw [realMath_distance_vertical 400 220 300 (by norm_num)]
    norm_num
  have hd2 : distance realMath (400 : ℝ) 300 400 220 = 80 := by
    rw [realMath_distance_comm, hd]
  have hc := realMath_cos_angle 400 300 400 220 (by rw [hd2]; norm_num)
  have hs := realMath_sin_angle 400 300 400 220
  rw [hd2] at hc hs
  have hlt : distance realMath (400 : ℝ) 220 400 300 < 150 := by
    rw [hd]
    norm_num
  simp only [handleMouseInteraction, Bool.not_true, Bool.false_eq_true, if_false, List.map_cons,
    List.map_nil, hx, hy, if_pos hlt, hc, hs, hd]
  congr 2
  norm_num

end PointerScenario

/-- C10 as stated fails: in the scenario (pointer active at `(400, 300)`,
radius 150, particle at `(400, 220)` with zero velocity) `vx` is unchanged but
`vy` becomes `-7/30`: it decreases by `7/30`, it does not increase by `7/30`. -/
theorem pointer_scenario_not_plus_y :
    ∃ q : Particle ℝ,
      handleMouseInteraction realMath ⟨400, 300, true⟩ 150 [sampleParticle 400 220 0 0] = [q] ∧
      q.vx = 0 ∧ q.vy = -(7 / 30) ∧ q.vy ≠ 0 + 7 / 30 := by
  refine ⟨_, pointer_scenario_push (sampleParticle 400 220 0 0) rfl rfl, ?_, ?_, ?_⟩ <;>
    simp only [Particle.applyForce, sampleParticle] <;> norm_num

/-- C10, amended: in the scenario the particle is at distance 80 from the
pointer, keeps its position, `vx` is unchanged and `vy` decreases by
`7/30 = 0.5 * (150 - 80) / 150`: a push of that magnitude along `-y`, the
direction from the pointer `(400, 300)` to the particle `(400, 220)`. -/
theorem pointer_scenario_minus_y (p : Particle ℝ) (hx : p.x = 400) (hy : p.y = 220) :
    ∃ q : Particle ℝ,
      handleMouseInteraction realMath ⟨400, 300, true⟩ 150 [p] = [q] ∧
      distance realMath p.x p.y 400 300 = 80 ∧
      q.x = p.x ∧ q.y = p.y ∧ q.vx = p.vx ∧ q.vy = p.vy - 7 / 30 ∧
      Real.sqrt ((q.vx - p.vx) ^ 2 + (q.vy - p.vy) ^ 2) = 0.5 * (150 - 80) / 150 ∧
      (q.vx - p.vx) * (p.x - 400) + (q.vy - p.vy) * (p.y - 300) > 0 := by
  refine ⟨_, pointer_scenario_push p hx hy, ?_, rfl, rfl, ?_, ?_, ?_, ?_⟩
  · rw [hx, hy, realMath_distance_vertical 400 220 300 (by norm_num)]
    norm_num
  · simp only [Particle.applyForce, add_zero]
  · simp only [Particle.applyForce]
    ring
  · simp only [Particle.applyForce]
    rw [show (p.vx + 0 - p.vx) ^ 2 + (p.vy + -(7 / 30) - p.vy) ^ 2 = ((7 : ℝ) / 30) ^ 2 by ring,
      Real.sqrt_sq (by norm_num)]
    norm_num
  · simp only [Particle.applyForce, hx, hy]
    norm_num

/-- C10, amended, on the scenario particle at rest: it ends with `vx = 0`,
`vy = -7/30`. -/
theorem pointer_scenario_minus_y_witness :
    ∃ q : Particle ℝ,
      handleMouseInteraction realMath ⟨400, 300, true⟩ 150 [sampleParticle 400 220 0 0] = [q] ∧
      q.vx = 0 ∧ q.vy = -(7 / 30) := by
  obtain ⟨q, hq, -, -, -, hvx, hvy, -⟩ :=
    pointer_scenario_minus_y (sampleParticle 400 220 0 0) rfl rfl
  refine ⟨q, hq, hvx, ?_⟩
  rw [hvy]
  simp only [sampleParticle]
  norm_num

section Spawn

variable {α : Type} [LinearOrderedField α] [FloorRing α]

theorem Particle.new_x (x y : α) (g : Rng α) : (Particle.new x y g).1.x = x :=
  rfl

theorem Particle.new_y (x y : α) (g : Rng α) : (Particle.new x y g).1.y = y :=
  rfl

theorem Particle.new_rng (x y : α) (g : Rng α) :
    (Particle.new x y g).2 = ⟨g.draws, g.pos + 5⟩ :=
  rfl

theorem clusterLoop_succ (x y : α) (n : ℕ) (ps : List (Particle α)) (g : Rng α) :
    clusterLoop x y (n + 1) ps g =
      clusterLoop x y n
        (ps ++ [(Particle.new (x + (g.draws g.pos - 0.5) * 50)
          (y + (g.draws (g.pos + 1) - 0.5) * 50) ⟨g.draws, g.pos + 2⟩).1])
        ⟨g.draws, g.pos + 7⟩ :=
  rfl

theorem fillLoop_succ (c : Canvas) (n : ℕ) (ps : List (Particle α)) (g : Rng α) :
    fillLoop c (n + 1) ps g =
      fillLoop c n
        (ps ++ [(Particle.new (g.draws g.pos * (c.width : α))
          (g.draws (g.pos + 1) * (c.height : α)) ⟨g.draws, g.pos + 2⟩).1])
        ⟨g.draws, g.pos + 7⟩ :=
  rfl

/-- The cluster loop appends: its result is the list it started from followed
by the particles it creates, which do not depend on that list. -/
theorem clusterLoop_append (x y : α) (n : ℕ) (ps : List (Particle α)) (g : Rng α) :
    (clusterLoop x y n ps g).1 = ps ++ (clusterLoop x y n [] g).1 := by
  induction n generalizing ps g with
  | zero => simp [clusterLoop]
  | succ n ih =>
    rw [clusterLoop_succ, clusterLoop_succ, ih, ih ([] ++ _)]
    simp

theorem clusterLoop_length (x y : α) (n : ℕ) (ps : List (Particle α)) (g : Rng α) :
    (clusterLoop x y n ps g).1.length = ps.length + n := by
  induction n generalizing ps g with
  | zero => simp [clusterLoop]
  | succ n ih =>
    rw [clusterLoop_succ, ih]
    simp
    omega

/-- The fill loop appends: its result is the list it started from followed by
the particles it creates, which do not depend on that list. -/
theorem fillLoop_append (c : Canvas) (n : ℕ) (ps : List (Particle α)) (g : Rng α) :
    (fillLoop c n ps g).1 = ps ++ (fillLoop c n [] g).1 := by
  induction n generalizing ps g with
  | zero => simp [fillLoop]
  | succ n ih =>
    rw [fillLoop_succ, fillLoop_succ, ih, ih ([] ++ _)]
    simp

theorem fillLoop_length (c : Canvas) (n : ℕ) (ps : List (Particle α)) (g : Rng α) :
    (fillLoop c n ps g).1.length = ps.length + n := by
  induction n generalizing ps g with
  | zero => simp [fillLoop]
  | succ n ih =>
    rw [fillLoop_succ, ih]
    simp
    omega

/-- With every draw in `[0, 1)`, the fill loop keeps all particles on the
surface if those it started from were. -/
theorem fillLoop_within (c : Canvas) (n : ℕ) (ps : List (Particle α)) (d : ℕ → α) (k : ℕ)
    (hd : ∀ m, 0 ≤ d m ∧ d m < 1)
    (hps : ∀ p ∈ ps, 0 ≤ p.x ∧ p.x ≤ (c.width : α) ∧ 0 ≤ p.y ∧ p.y ≤ (c.height : α)) :
    ∀ p ∈ (fillLoop c n ps ⟨d, k⟩).1,
      0 ≤ p.x ∧ p.x ≤ (c.width : α) ∧ 0 ≤ p.y ∧ p.y ≤ (c.height : α) := by
  induction n generalizing ps k with
  | zero => simpa [fillLoop] using hps
  | succ n ih =>
    rw [fillLoop_succ]
    apply ih
    intro p hp
    rcases List.mem_append.mp hp with h | h
    · exact hps p h
    · rw [List.mem_singleton] at h
      subst h
      have hw : (0 : α) ≤ (c.width : α) := Nat.cast_nonneg _
      have hh : (0 : α) ≤ (c.height : α) := Nat.cast_nonneg _
      rw [Particle.new_x, Particle.new_y]
      refine ⟨mul_nonneg (hd _).1 hw, ?_, mul_nonneg (hd _).1 hh, ?_⟩
      · exact mul_le_of_le_one_left hw (le_of_lt (hd _).2)
      · exact mul_le_of_le_one_left hh (le_of_lt (hd _).2)

theorem handleClick_fst (clientX clientY left top : α) (ps : List (Particle α)) (g : Rng α) :
    (handleClick clientX clientY left top ps g).1 =
      if (clusterLoop (clientX - left) (clientY - top) (clusterSize (g.draws g.pos)).toNat ps
          ⟨g.draws, g.pos + 1⟩).1.length > 500 then
        (clusterLoop (clientX - left) (clientY - top) (clusterSize (g.draws g.pos)).toNat ps
          ⟨g.draws, g.pos + 1⟩).1.drop
          ((clusterLoop (clientX - left) (clientY - top) (clusterSize (g.draws g.pos)).toNat ps
            ⟨g.draws, g.pos + 1⟩).1.length - 500)
      else
        (clusterLoop (clientX - left) (clientY - top) (clusterSize (g.draws g.pos)).toNat ps
          ⟨g.draws, g.pos + 1⟩).1 := by
  unfold handleClick
  simp only [Rng.random]
  split_ifs <;> simp only

theorem handleClick_length_le (clientX clientY left top : α) (ps : List (Particle α))
    (g : Rng α) :
    (handleClick clientX clientY left top ps g).1.length ≤ 500 := by
  rw [handleClick_fst]
  split_ifs with hlen
  · rw [List.length_drop]
    omega
  · omega

theorem clicks_length_le (clicks : List (α × α × α × α)) (ps : List (Particle α)) (g : Rng α)
    (h : ps.length ≤ 500) :
    (clicks.foldl (fun st e => handleClick e.1 e.2.1 e.2.2.1 e.2.2.2 st.1 st.2) (ps, g)).1.length ≤
      500 := by
  induction clicks generalizing ps g with
  | nil => simpa using h
  | cons e es ih =>
    rw [List.foldl_cons]
    exact ih _ _ (handleClick_length_le _ _ _ _ ps g)

end Spawn

/-- C7: the population cap. After `handleClick` on a list of `n` particles with
a cluster of size `k`, the list holds `min (n + k) 500` particles: exactly the
last `min (n + k) 500` elements of the old list followed by the `k` new
particles in creation order. So the result is a suffix of that list (what is
dropped is its oldest part) and, from a list of at most 500 particles, no
sequence of clicks leaves more than 500. -/
theorem click_population_cap {α : Type} [LinearOrderedField α] [FloorRing α]
    (clientX clientY left top : α) (ps : List (Particle α)) (g : Rng α) :
    ∃ (k : ℕ) (news : List (Particle α)),
      k = (clusterSize (g.draws g.pos)).toNat ∧
      news = (clusterLoop (clientX - left) (clientY - top) k [] ⟨g.draws, g.pos + 1⟩).1 ∧
      news.length = k ∧
      (handleClick clientX clientY left top ps g).1.length = min (ps.length + k) 500 ∧
      (handleClick clientX clientY left top ps g).1 =
        (ps ++ news).drop ((ps ++ news).length - min (ps.length + k) 500) ∧
      List.IsSuffix (handleClick clientX clientY left top ps g).1 (ps ++ news) ∧
      (handleClick clientX clientY left top ps g).1.length ≤ 500 ∧
      ∀ clicks : List (α × α × α × α), ps.length ≤ 500 →
        (clicks.foldl (fun st e => handleClick e.1 e.2.1 e.2.2.1 e.2.2.2 st.1 st.2)
          (ps, g)).1.length ≤ 500 := by
  refine ⟨_, _, rfl, rfl, ?_, ?_⟩
  · rw [clusterLoop_length]
    simp
  have hnews : ((clusterLoop (clientX - left) (clientY - top) (clusterSize (g.draws g.pos)).toNat
      [] ⟨g.draws, g.pos + 1⟩).1).length = (clusterSize (g.draws g.pos)).toNat := by
    rw [clusterLoop_length]
    simp
  have hfst := handleClick_fst clientX clientY left top ps g
  rw [clusterLoop_append] at hfst
  generalize (clusterLoop (clientX - left) (clientY - top) (clusterSize (g.draws g.pos)).toNat
      [] ⟨g.draws, g.pos + 1⟩).1 = news at hnews hfst
  generalize (clusterSize (g.draws g.pos)).toNat = k at hnews
  have hlen : (ps ++ news).length = ps.length + k := by
    rw [List.length_append, hnews]
  have heq : (handleClick clientX clientY left top ps g).1 =
      (ps ++ news).drop ((ps ++ news).length - min (ps.length + k) 500) := by
    rw [hfst]
    split_ifs with h
    · rw [hlen] at h ⊢
      rw [min_eq_right (by omega)]
    · rw [hlen] at h ⊢
      rw [min_eq_left (by omega)]
      simp
  refine ⟨?_, heq, ?_, ?_, fun clicks h => clicks_length_le clicks ps g h⟩
  · rw [heq, List.length_drop, hlen]
    omega
  · rw [heq]
    exact List.drop_suffix _ _
  · rw [heq, List.length_drop, hlen]
    omega

/-- C7 on a list of 495 particles and the sample draws: the first draw is `0`,
so the cluster has 10 particles and the click leaves `min (495 + 10) 500 = 500`
particles, a suffix of the old list followed by the new ones. -/
theorem click_population_cap_witness :
    (handleClick (100 : ℚ) 100 0 0 (List.replicate 495 edgeParticle) sampleRng).1.length = 500 ∧
      ∃ news : List (Particle ℚ), news.length = 10 ∧
        List.IsSuffix
          (handleClick (100 : ℚ) 100 0 0 (List.replicate 495 edgeParticle) sampleRng).1
          (List.replicate 495 edgeParticle ++ news) := by
  obtain ⟨k, news, hk, -, hnews, hlen, -, hsuf, -⟩ :=
    click_population_cap (100 : ℚ) 100 0 0 (List.replicate 495 edgeParticle) sampleRng
  have hk10 : k = 10 := by
    rw [hk]
    simp [clusterSize, sampleRng]
  subst hk10
  refine ⟨?_, news, hnews, hsuf⟩
  rw [hlen, List.length_replicate]
  norm_num

/-- C8: reset. Whatever the prior particle list, `handleReset` (and likewise
`initParticles`) leaves exactly `particleCount` particles, the result does not
depend on the prior list (all of it is discarded; every member is newly
constructed), and, with every `Math.random()` draw in `[0, 1)`, each member has
`0 ≤ x ≤ canvas.width` and `0 ≤ y ≤ canvas.height`. -/
theorem reset_count_and_bounds {α : Type} [LinearOrderedField α] [FloorRing α]
    (particleCount : ℕ) (c : Canvas) (prior : List (Particle α)) (g : Rng α)
    (hg : ∀ m, 0 ≤ g.draws m ∧ g.draws m < 1) :
    ((handleReset particleCount c prior g).1.length = particleCount ∧
      (∀ prior2 : List (Particle α),
        handleReset particleCount c prior g = handleReset particleCount c prior2 g) ∧
      ∀ p ∈ (handleReset particleCount c prior g).1,
        0 ≤ p.x ∧ p.x ≤ (c.width : α) ∧ 0 ≤ p.y ∧ p.y ≤ (c.height : α)) ∧
    ((initParticles particleCount c prior g).1.length = particleCount ∧
      (∀ prior2 : List (Particle α),
        initParticles particleCount c prior g = initParticles particleCount c prior2 g) ∧
      ∀ p ∈ (initParticles particleCount c prior g).1,
        0 ≤ p.x ∧ p.x ≤ (c.width : α) ∧ 0 ≤ p.y ∧ p.y ≤ (c.height : α)) := by
  have hlen : (fillLoop c particleCount ([] : List (Particle α)) g).1.length = particleCount := by
    rw [fillLoop_length]
    simp
  have hin := fillLoop_within c particleCount ([] : List (Particle α)) g.draws g.pos hg
    (fun p hp => absurd hp (List.not_mem_nil p))
  exact ⟨⟨hlen, fun _ => rfl, hin⟩, ⟨hlen, fun _ => rfl, hin⟩⟩

section SampleDraws

theorem sampleRng_draws_unit (m : ℕ) : 0 ≤ sampleRng.draws m ∧ sampleRng.draws m < 1 := by
  have h : m % 4 < 4 := Nat.mod_lt _ (by norm_num)
  have hc : ((m % 4 : ℕ) : ℚ) < 4 := by exact_mod_cast h
  have h0 : (0 : ℚ) ≤ ((m % 4 : ℕ) : ℚ) := Nat.cast_nonneg _
  show 0 ≤ ((m % 4 : ℕ) : ℚ) / 4 ∧ ((m % 4 : ℕ) : ℚ) / 4 < 1
  constructor
  · positivity
  · rw [div_lt_one (by norm_num)]
    exact hc

end SampleDraws

/-- C8 on the 800×600 surface with the sample draws: resetting a list that
holds the edge particle to 3 particles leaves 3 particles, all on the
surface. -/
theorem reset_count_and_bounds_witness :
    (handleReset 3 surface [edgeParticle] sampleRng).1.length = 3 ∧
      ∀ p ∈ (handleReset 3 surface [edgeParticle] sampleRng).1,
        0 ≤ p.x ∧ p.x ≤ (surface.width : ℚ) ∧ 0 ≤ p.y ∧ p.y ≤ (surface.height : ℚ) :=
  ⟨(reset_count_and_bounds 3 surface [edgeParticle] sampleRng sampleRng_draws_unit).1.1,
    (reset_count_and_bounds 3 surface [edgeParticle] sampleRng sampleRng_draws_unit).1.2.2⟩

end ParticlePlayground
